import Mathlib

/-!
Verification development for the citation network analysis core
(`citation_extractor.py`, `graph_builder.py`, `pattern_detector.py`,
`citation_graph_analyzer.py`).

Python strings are embedded as `List Char`, Python floats as `ℚ`,
Python dicts as insertion-ordered association lists, Python sets as
duplicate-free lists, and code paths that can raise as `Option`.
Scanning loops that do not recurse structurally carry an explicit
fuel argument; the wrappers instantiate the fuel with a bound that
dominates the number of loop iterations the Python code performs.
-/

set_option maxRecDepth 20000

namespace CitationCore

abbrev Str := List Char

/-- Whitespace test matching the ASCII fragment of Python `\s` / `str.split()`. -/
def isSpaceChar (c : Char) : Bool :=
  c = ' ' ∨ c = '\t' ∨ c = '\n' ∨ c = '\r' ∨ c = '\x0b' ∨ c = '\x0c'

/-- Python `str.lower()` (ASCII). -/
def pyLower (s : Str) : Str := s.map Char.toLower

/-- Python `str.strip()`: remove leading and trailing whitespace. -/
def pyStrip (s : Str) : Str :=
  ((s.dropWhile isSpaceChar).reverse.dropWhile isSpaceChar).reverse

/-- Python `str.split(sep)` for a one-character separator: split at every
occurrence, keeping empty pieces. -/
def pySplit (sep : Char) : Str → List Str
  | [] => [[]]
  | c :: t =>
    match pySplit sep t with
    | [] => [[c]]
    | h :: ts => if c = sep then [] :: h :: ts else (c :: h) :: ts

/-- Python `str.split()` with no argument: split on whitespace runs,
dropping empty pieces.  `cur` holds the reversed word being scanned. -/
def pySplitWsGo (cur : Str) : Str → List Str
  | [] => if cur.isEmpty then [] else [cur.reverse]
  | c :: t =>
    if isSpaceChar c then
      if cur.isEmpty then pySplitWsGo [] t else cur.reverse :: pySplitWsGo [] t
    else
      pySplitWsGo (c :: cur) t

def pySplitWs (s : Str) : List Str := pySplitWsGo [] s

/-- Python substring containment `needle in hay`. -/
def strContains (hay needle : Str) : Bool :=
  if needle.isPrefixOf hay then true
  else
    match hay with
    | [] => false
    | _ :: t => strContains t needle

/-- Decimal digit character for a value below ten. -/
def digitChar (n : Nat) : Char := Char.ofNat (48 + n)

/-- Python `str(n)` for a natural number, with explicit fuel
(the fuel only has to exceed the number of decimal digits). -/
def natToStrF : Nat → Nat → Str
  | 0, _ => []
  | fuel + 1, n =>
    if n < 10 then [digitChar n]
    else natToStrF fuel (n / 10) ++ [digitChar (n % 10)]

def natToStr (n : Nat) : Str := natToStrF (n + 1) n

/-- Python `str(i)` for an integer. -/
def intToStr (i : Int) : Str :=
  if i < 0 then '-' :: natToStr i.natAbs else natToStr i.toNat

/-- Decimal value of a digit string. -/
def digitsVal (s : Str) : Nat :=
  s.foldl (fun acc c => 10 * acc + (c.toNat - 48)) 0

/-- Python `int(s)` restricted to the digit strings it is applied to in
this code base; `none` models the `ValueError` raised otherwise. -/
def pyInt (s : Str) : Option Nat :=
  if s ≠ [] ∧ s.all Char.isDigit then some (digitsVal s) else none

/-- Nonempty test as Python truthiness for strings. -/
def strTruthy (s : Str) : Bool := ¬ s.isEmpty

/-! ## Citation extractor (`citation_extractor.py`) -/

/-- A bibliographic entry as consumed from the caller: the reference
dictionaries with keys `authors`, `title`, `year`, `venue`.  A missing
`authors` key and the empty list coincide because the code only ever
reads `ref.get('authors', [])`. -/
structure Reference where
  authors : List Str
  title : Option Str
  year : Option Int
  venue : Option Str
deriving DecidableEq

/-- One citation occurrence extracted from the text
(dataclass `ExtractedCitation`). -/
structure ExtractedCitation where
  reference_id : Str
  position : Nat
  context : Str
  sentence : Str
  citation_type : Str
deriving DecidableEq

/-- Terminal punctuation class `[.!?]` of the sentence splitter. -/
def isTermPunct (c : Char) : Bool := c = '.' ∨ c = '!' ∨ c = '?'

/-- Scanner for `re.split(r'[.!?]+\s+', text)`: a maximal run of terminal
punctuation immediately followed by whitespace ends a piece and the
whitespace run is discarded; a punctuation run not followed by whitespace
stays inside the piece.  `acc` is the reversed current piece, `pend` the
reversed pending punctuation run, `skipws` the in-separator state. -/
def sentSplitGo (skipws : Bool) (acc pend : Str) : Str → List Str
  | [] => if skipws then [[]] else [(pend ++ acc).reverse]
  | c :: t =>
    if skipws then
      if isSpaceChar c then sentSplitGo true [] [] t
      else if isTermPunct c then sentSplitGo false [] [c] t
      else sentSplitGo false [c] [] t
    else
      if isTermPunct c then sentSplitGo false acc (c :: pend) t
      else if pend.isEmpty then sentSplitGo false (c :: acc) [] t
      else if isSpaceChar c then acc.reverse :: sentSplitGo true [] [] t
      else sentSplitGo false (c :: (pend ++ acc)) [] t

/-- Model of `_split_sentences`: regex split, then strip each piece and drop the
empty ones. -/
def splitSentences (text : Str) : List Str :=
  ((sentSplitGo false [] [] text).map pyStrip).filter (fun s => ¬ s.isEmpty)

/-- Consume a maximal nonempty run of characters satisfying `p`
(a greedy `p+` regex atom); returns the run and the remainder. -/
def takeRun (p : Char → Bool) (s : Str) : Option (Str × Str) :=
  let a := s.takeWhile p
  if a.isEmpty then none else some (a, s.dropWhile p)

/-- Consume one literal character. -/
def litChar (c : Char) : Str → Option Str
  | [] => none
  | c' :: t => if c' = c then some t else none

/-- Consume a literal character sequence. -/
def litStr : Str → Str → Option Str
  | [], s => some s
  | c :: cs, s => (litChar c s).bind (litStr cs)

/-- Consume one character of a class (a single-character regex atom
such as `[A-Z]`). -/
def litClass (p : Char → Bool) : Str → Option Str
  | [] => none
  | c :: t => if p c then some t else none

/-- Consume exactly four digits (the `\d{4}` atom). -/
def digits4 (s : Str) : Option Str :=
  if (s.take 4).length = 4 ∧ (s.take 4).all Char.isDigit then some (s.drop 4)
  else none

/-- Consume as many `,\s*\d+` groups as possible (the `(?:,\s*\d+)*` atom
of the first citation pattern); returns the remainder.  A trailing comma
not followed by digits is not consumed.  Fuel-bounded scan. -/
def listTailF : Nat → Str → Str
  | 0, s => s
  | fuel + 1, s =>
    match litChar ',' s with
    | none => s
    | some t1 =>
      match takeRun Char.isDigit (t1.dropWhile isSpaceChar) with
      | none => s
      | some (_, t3) => listTailF fuel t3

def listTail (s : Str) : Str := listTailF (s.length + 1) s

/-- A matcher attempts one regex pattern anchored at the start of `s`,
returning the captured group and the remainder after the match. -/
abbrev Matcher := Str → Option (Str × Str)

/-- Pattern `\[(\d+(?:,\s*\d+)*)\]` — bracketed numeric singleton or list. -/
def matcherNumList : Matcher
  | '[' :: t => do
    let (_, r1) ← takeRun Char.isDigit t
    let r2 := listTail r1
    let r3 ← litChar ']' r2
    some (t.take (t.length - r2.length), r3)
  | _ => none

/-- Pattern `\[(\d+-\d+)\]` — bracketed numeric range. -/
def matcherNumRange : Matcher
  | '[' :: t => do
    let (_, r1) ← takeRun Char.isDigit t
    let r2 ← litChar '-' r1
    let (_, r3) ← takeRun Char.isDigit r2
    let r4 ← litChar ']' r3
    some (t.take (t.length - r3.length), r4)
  | _ => none

/-- Pattern `\(([A-Z][a-z]+\s+et\s+al\.,\s*\d{4})\)` — author-year, et-al form. -/
def matcherEtAl : Matcher
  | '(' :: t => do
    let r1 ← litClass Char.isUpper t
    let (_, r2) ← takeRun Char.isLower r1
    let (_, r3) ← takeRun isSpaceChar r2
    let r4 ← litStr [ 'e', 't' ] r3
    let (_, r5) ← takeRun isSpaceChar r4
    let r6 ← litStr [ 'a', 'l', '.', ',' ] r5
    let r7 ← digits4 (r6.dropWhile isSpaceChar)
    let r8 ← litChar ')' r7
    some (t.take (t.length - r7.length), r8)
  | _ => none

/-- Pattern `\(([A-Z][a-z]+\s+and\s+[A-Z][a-z]+,\s*\d{4})\)` — author-year,
two-author form. -/
def matcherAnd : Matcher
  | '(' :: t => do
    let r1 ← litClass Char.isUpper t
    let (_, r2) ← takeRun Char.isLower r1
    let (_, r3) ← takeRun isSpaceChar r2
    let r4 ← litStr [ 'a', 'n', 'd' ] r3
    let (_, r5) ← takeRun isSpaceChar r4
    let r6 ← litClass Char.isUpper r5
    let (_, r7) ← takeRun Char.isLower r6
    let r8 ← litChar ',' r7
    let r9 ← digits4 (r8.dropWhile isSpaceChar)
    let r10 ← litChar ')' r9
    some (t.take (t.length - r9.length), r10)
  | _ => none

/-- The compiled pattern list `CITATION_PATTERNS`, in source order. -/
def matcherList : List Matcher :=
  [matcherNumList, matcherNumRange, matcherEtAl, matcherAnd]

/-- One step of the `finditer` scan at offset `i`: emit the match and
jump past it, or advance one character. -/
def finditerBody (recur : Nat → Str → List (Nat × Str)) (i : Nat) (s : Str) :
    Option (Str × Str) → List (Nat × Str)
  | some (g, rest) => (i, g) :: recur (i + (s.length - rest.length)) rest
  | none =>
    match s with
    | [] => []
    | _ :: t => recur (i + 1) t

/-- Model of `pattern.finditer(sentence)`: scan left to right for non-overlapping
matches, recording the start offset and the captured group of each.
Fuel-bounded; every step either consumes the match or advances one
character. -/
def finditerF (m : Matcher) : Nat → Nat → Str → List (Nat × Str)
  | 0, _, _ => []
  | fuel + 1, i, s => finditerBody (finditerF m fuel) i s (m s)

def finditer (m : Matcher) (s : Str) : List (Nat × Str) :=
  finditerF m (s.length + 1) 0 s

/-- Model of `_parse_reference_ids`: expand a captured group into reference-id
strings — inclusive range for `a-b`, comma split for lists, otherwise a
single stripped id. -/
def parseReferenceIds (s : Str) : List Str :=
  if ('-' ∈ s) ∧ ((s.filter (fun c => ¬ c = '-')) ≠ [] ∧
      (s.filter (fun c => ¬ c = '-')).all Char.isDigit) then
    match pySplit '-' s with
    | [p1, p2] =>
      match pyInt p1, pyInt p2 with
      | some st, some en => (List.range' st (en + 1 - st)).map natToStr
      | _, _ => []
    | _ => []
  else if ',' ∈ s then
    ((pySplit ',' s).map pyStrip).filter (fun x => ¬ x.isEmpty)
  else [pyStrip s]

/-- Model of `_extract_context`: join the window of sentences around position `i`
(two on each side, clipped at the document boundaries) with spaces. -/
def extractContext (sentences : List Str) (i : Nat) : Str :=
  List.intercalate [' ']
    ((sentences.drop (i - 2)).take (min (i + 3) sentences.length - (i - 2)))

def supportWords : List Str :=
  [ "shown".toList, "demonstrated".toList, "proven".toList,
    "validated".toList, "confirmed".toList ]

def contrastWords : List Str :=
  [ "however".toList, "contrary".toList, "unlike".toList,
    "different".toList, "contrast".toList ]

def methodologyWords : List Str :=
  [ "method".toList, "approach".toList, "technique".toList,
    "algorithm".toList, "using".toList ]

/-- Model of `_classify_citation`: keyword-driven type with precedence
support, contrast, methodology, defaulting to support. -/
def classifyCitation (sentence : Str) : Str :=
  let lo := pyLower sentence
  if supportWords.any (fun w => strContains lo w) then "support".toList
  else if contrastWords.any (fun w => strContains lo w) then "contrast".toList
  else if methodologyWords.any (fun w => strContains lo w) then "methodology".toList
  else "support".toList

/-- The citations produced by one pattern on one (indexed) sentence:
the innermost two loops of `extract_citations`. -/
def citationsOfMatch (sentences : List Str) (i : Nat) (sentence : Str)
    (m : Matcher) : List ExtractedCitation :=
  (finditer m sentence).flatMap fun pg =>
    (parseReferenceIds pg.2).map fun rid =>
      { reference_id := rid
        position := pg.1
        context := extractContext sentences i
        sentence := sentence
        citation_type := classifyCitation sentence }

/-- Model of `extract_citations`: iterate patterns, then sentences, then matches,
then resolved ids, appending in that loop order. -/
def extractCitations (text : Str) (_references : List Reference) : List ExtractedCitation :=
  let sentences := splitSentences text
  matcherList.flatMap fun m =>
    sentences.enum.flatMap fun is =>
      citationsOfMatch sentences is.1 is.2 m

/-- The same nested loops, grouped into one block per (pattern, sentence)
pair; `extractCitations` is the concatenation of these blocks. -/
def extractBlocks (text : Str) : List (List ExtractedCitation) :=
  let sentences := splitSentences text
  matcherList.flatMap fun m =>
    sentences.enum.map fun is =>
      citationsOfMatch sentences is.1 is.2 m

/-! ## Graph builder (`graph_builder.py`) -/

/-- Per-node attribute dictionary stored by `build_graph`. -/
structure NodeAttrs where
  title : Str
  year : Option Int
  authors : List Str
  venue : Str
deriving DecidableEq

/-- Insertion-ordered dictionary update (Python `d[k] = v`). -/
def upsertVal (k : α) (v : β) [DecidableEq α] : List (α × β) → List (α × β)
  | [] => [(k, v)]
  | (k', v') :: t => if k' = k then (k, v) :: t else (k', v') :: upsertVal k v t

/-- Insertion-ordered dictionary lookup (Python `d.get(k)`). -/
def lookupVal (k : α) [DecidableEq α] : List (α × β) → Option β
  | [] => none
  | (k', v') :: t => if k' = k then some v' else lookupVal k t

/-- Append `v` to the list stored under `k`, creating it if absent
(the `setdefault`-style grouping loops). -/
def upsertGroup (k : α) (v : β) [DecidableEq α] :
    List (α × List β) → List (α × List β)
  | [] => [(k, [v])]
  | (k', vs) :: t =>
    if k' = k then (k', vs ++ [v]) :: t else (k', vs) :: upsertGroup k v t

/-- Increment the counter stored under `k`, creating it at 1 if absent. -/
def upsertCount (k : α) [DecidableEq α] : List (α × Nat) → List (α × Nat)
  | [] => [(k, 1)]
  | (k', n) :: t =>
    if k' = k then (k', n + 1) :: t else (k', n) :: upsertCount k t

/-- Python `set.add` on a duplicate-free list. -/
def setAdd (s : List α) (x : α) [DecidableEq α] : List α :=
  if x ∈ s then s else s ++ [x]

/-- The citation network graph (dataclass `CitationGraph`): `nodes` is a
set (kept as a duplicate-free list), `edges` an ordered edge list, and
the attribute dictionaries are insertion-ordered association lists; an
edge attribute is its `type` tag. -/
structure CitationGraph where
  nodes : List Str
  edges : List (Str × Str)
  node_attributes : List (Str × NodeAttrs)
  edge_attributes : List ((Str × Str) × Str)
deriving DecidableEq

/-- Model of `CitationGraph.add_node`. -/
def addNode (g : CitationGraph) (nodeId : Str) (attrs : NodeAttrs) :
    CitationGraph :=
  { g with
    nodes := setAdd g.nodes nodeId
    node_attributes := upsertVal nodeId attrs g.node_attributes }

/-- Model of `CitationGraph.add_edge` with a `type` attribute. -/
def addEdge (g : CitationGraph) (a b : Str) (ty : Str) : CitationGraph :=
  { g with
    edges := g.edges ++ [(a, b)]
    edge_attributes := upsertVal (a, b) ty g.edge_attributes }

/-- Model of `CitationGraph.get_neighbors`: scan the edge list in both
orientations, keeping multiplicity and order. -/
def getNeighbors (g : CitationGraph) (nodeId : Str) : List Str :=
  g.edges.filterMap fun e =>
    if e.1 = nodeId then some e.2
    else if e.2 = nodeId then some e.1
    else none

/-- Model of `CitationGraph.get_degree`. -/
def getDegree (g : CitationGraph) (nodeId : Str) : Nat :=
  (getNeighbors g nodeId).length

/-- The node-creation phase of `build_graph`: one node per reference,
keyed `str(i+1)`, tagged with the reference attributes. -/
def addReferenceNodes (references : List Reference) : CitationGraph :=
  (references.enum).foldl
    (fun g ir =>
      addNode g (natToStr (ir.1 + 1))
        { title := ir.2.title.getD []
          year := ir.2.year
          authors := ir.2.authors
          venue := ir.2.venue.getD [] })
    { nodes := [], edges := [], node_attributes := [], edge_attributes := [] }

/-- Group citations by the first 100 characters of their context
(`_add_co_citation_edges`, grouping phase). -/
def contextGroups (citations : List ExtractedCitation) :
    List (Str × List Str) :=
  citations.foldl
    (fun acc c => upsertGroup (c.context.take 100) c.reference_id acc) []

/-- All ordered pairs `(l[i], l[j])` with `i < j`, in the nested-loop
order `for i, a in enumerate(l): for b in l[i+1:]`. -/
def pairsAfter (l : List Str) : List (Str × Str) :=
  l.enum.flatMap fun ia => (l.drop (ia.1 + 1)).map fun b => (ia.2, b)

/-- The ordered pair candidates of the co-citation pass: every pair from
every context group holding more than one citation. -/
def cocitCandidates (citations : List ExtractedCitation) : List (Str × Str) :=
  (contextGroups citations).flatMap fun g =>
    if g.2.length > 1 then pairsAfter g.2 else []

/-- Model of `_add_co_citation_edges`: add a co-citation edge for every candidate
pair whose two ids are nodes. -/
def addCoCitationEdges (g : CitationGraph)
    (citations : List ExtractedCitation) : CitationGraph :=
  (cocitCandidates citations).foldl
    (fun g' p =>
      if p.1 ∈ g'.nodes ∧ p.2 ∈ g'.nodes then
        addEdge g' p.1 p.2 ( "co-citation".toList)
      else g')
    g

/-- Group reference ids by normalized nonempty venue
(`_add_bibliographic_coupling_edges`, grouping phase). -/
def venueGroups (references : List Reference) : List (Str × List Str) :=
  (references.enum).foldl
    (fun acc ir =>
      let v := pyLower (ir.2.venue.getD [])
      if v = [] then acc else upsertGroup v (natToStr (ir.1 + 1)) acc)
    []

/-- The ordered pair candidates of the coupling pass. -/
def couplingCandidates (references : List Reference) : List (Str × Str) :=
  (venueGroups references).flatMap fun g =>
    if g.2.length > 1 then pairsAfter g.2 else []

/-- Model of `_add_bibliographic_coupling_edges`: add a coupling edge for every
candidate pair whose ids are nodes and that is not yet connected in
either orientation. -/
def addCouplingEdges (g : CitationGraph) (references : List Reference) :
    CitationGraph :=
  (couplingCandidates references).foldl
    (fun g' p =>
      if p.1 ∈ g'.nodes ∧ p.2 ∈ g'.nodes then
        if (p.1, p.2) ∈ g'.edges ∨ (p.2, p.1) ∈ g'.edges then g'
        else addEdge g' p.1 p.2 ( "coupling".toList)
      else g')
    g

/-- Model of `GraphBuilder.build_graph`: nodes, then co-citation edges, then
bibliographic-coupling edges. -/
def buildGraph (citations : List ExtractedCitation)
    (references : List Reference) : CitationGraph :=
  addCouplingEdges (addCoCitationEdges (addReferenceNodes references) citations)
    references

/-! ## Pattern detector (`pattern_detector.py`) -/

/-- A detected anomaly (dataclass `CitationPattern`). -/
structure CitationPattern where
  pattern_type : Str
  description : Str
  suspicion_score : ℚ
  evidence : List Str
  affected_references : List Str
deriving DecidableEq

/-- Decimal rendering `{q:.2f}` of the idealized rational value
(nonnegative in every use). -/
def format2f (q : ℚ) : Str :=
  let m := (round (q * 100)).toNat
  natToStr (m / 100) ++ '.' :: digitChar (m % 100 / 10) :: [digitChar (m % 10)]

/-- Percent rendering `{q:.1%}` of the idealized rational value. -/
def formatPct1 (q : ℚ) : Str :=
  let m := (round (q * 1000)).toNat
  natToStr (m / 10) ++ '.' :: digitChar (m % 10) :: ['%']

/-- Model of `_detect_clustering`: average local clustering coefficient over the
nodes with at least two neighbors; emit a pattern when the average
exceeds the 0.7 threshold.  The fold state is
(total_clustering, nodes_with_neighbors). -/
def detectClustering (g : CitationGraph) : Option CitationPattern :=
  if g.nodes.length < 3 then none
  else
    let tc := g.nodes.foldl
      (fun tc node =>
        let ns := getNeighbors g node
        if ns.length < 2 then tc
        else
          let neighborEdges := ((pairsAfter ns).filter
            (fun p => (p.1, p.2) ∈ g.edges ∨ (p.2, p.1) ∈ g.edges)).length
          let maxPossible : ℚ := (ns.length : ℚ) * ((ns.length : ℚ) - 1) / 2
          ((if maxPossible > 0 then tc.1 + (neighborEdges : ℚ) / maxPossible
            else tc.1), tc.2 + 1))
      ((0 : ℚ), (0 : Nat))
    if tc.2 = 0 then none
    else
      let avg := tc.1 / (tc.2 : ℚ)
      if avg > 0.7 then
        some { pattern_type := "excessive_clustering".toList
               description :=
                 "Citations show excessive clustering, possibly indicating citation ring".toList
               suspicion_score := min avg 1
               evidence :=
                 [ "Average clustering coefficient: ".toList ++ format2f avg,
                   "Threshold exceeded: 0.7".toList]
               affected_references := g.nodes }
      else none

/-- Fuel bound for the ring search: more than the number of distinct
node ids mentioned anywhere in the graph, which dominates the growth of
the visited set and hence the recursion depth of `_find_ring_size`. -/
def cartelFuel (g : CitationGraph) : Nat :=
  ((g.nodes ++ g.edges.map Prod.fst ++ g.edges.map Prod.snd).dedup).length + 1

/-- The neighbor loop of `_find_ring_size`: return early with
`len(visited) + 1` on a neighbor equal to the start node, otherwise
fold the recursive ring sizes of unvisited neighbors into the maximum. -/
def ringLoop (recur : Str → Nat) (start : Str) (vlen : Nat)
    (visited : List Str) : List Str → Nat → Nat
  | [], acc => acc
  | nb :: rest, acc =>
    if nb = start then vlen + 1
    else if nb ∈ visited then ringLoop recur start vlen visited rest acc
    else ringLoop recur start vlen visited rest (max acc (recur nb))

/-- Model of `_find_ring_size`, fuel-bounded: depth-first search for a path back
to `start` through distinct nodes, tracking the largest visited count. -/
def ringSizeF (g : CitationGraph) (start : Str) :
    Nat → List Str → Str → Nat
  | 0, _, _ => 0
  | fuel + 1, visited, current =>
    if current ∈ visited then visited.length
    else
      let v := visited ++ [current]
      ringLoop (ringSizeF g start fuel v) start v.length v
        (getNeighbors g current) v.length

/-- Model of `_find_ring_size` at its call site: `visited` starts as the
singleton of the start node. -/
def findRingSize (g : CitationGraph) (start current : Str) : Nat :=
  ringSizeF g start (cartelFuel g) [start] current

/-- Model of `_detect_citation_cartels`: for every node and reciprocal neighbor,
run the ring search and emit a `citation_cartel` pattern when the ring
size reaches the threshold 3. -/
def detectCitationCartels (g : CitationGraph) : List CitationPattern :=
  g.nodes.flatMap fun node =>
    (getNeighbors g node).flatMap fun nb =>
      if node ∈ getNeighbors g nb then
        let ringSize := findRingSize g node nb
        if ringSize ≥ 3 then
          [{ pattern_type := "citation_cartel".toList
             description :=
               "Detected potential citation cartel of size ".toList ++
                 natToStr ringSize
             suspicion_score := min ((ringSize : ℚ) / 10) 1
             evidence :=
               [ "Ring size: ".toList ++ natToStr ringSize,
                 "Reciprocal citations detected between ".toList ++ node ++
                   " and ".toList ++ nb]
             affected_references := [node, nb] }]
        else []
      else []

/-- Citation count per reference id, in first-occurrence order
(`_detect_concentration`, counting phase). -/
def citationCounts (citations : List ExtractedCitation) : List (Str × Nat) :=
  citations.foldl (fun acc c => upsertCount c.reference_id acc) []

def listMaxNat (l : List Nat) : Nat := l.foldl max 0

def listSumNat (l : List Nat) : Nat := l.foldl (· + ·) 0

/-- Model of `_detect_concentration`: emit a `citation_concentration` pattern
when the most-cited reference holds more than 30% of all citations;
`share` is the source's `concentration_ratio`. -/
def detectConcentration (_g : CitationGraph)
    (citations : List ExtractedCitation) : Option CitationPattern :=
  if citations.isEmpty then none
  else
    let counts := citationCounts citations
    if counts.isEmpty then none
    else
      let maxCitations := listMaxNat (counts.map Prod.snd)
      let totalCitations := listSumNat (counts.map Prod.snd)
      let share : ℚ := (maxCitations : ℚ) / (totalCitations : ℚ)
      if share > 0.3 then
        some { pattern_type := "citation_concentration".toList
               description :=
                 "Abnormal concentration of citations on few references".toList
               suspicion_score := min (share * 1.5) 1
               evidence :=
                 [ "Top reference(s) have ".toList ++ formatPct1 share ++
                     " of all citations".toList,
                   "Max citations to single ref: ".toList ++
                     natToStr maxCitations ++ '/' :: natToStr totalCitations]
               affected_references :=
                 (counts.filter (fun kc => kc.2 = maxCitations)).map Prod.fst }
      else none

/-- Python truthiness for an optional integer (`if year:`). -/
def yearTruthy : Option Int → Option Int
  | some y => if y = 0 then none else some y
  | none => none

def listMaxInt : List Int → Int
  | [] => 0
  | h :: t => t.foldl max h

/-- Model of `_detect_temporal_anomalies`: with at least five dated nodes and no
year within the last three years of `currentYear`, emit a fixed
`temporal_anomaly` pattern. -/
def detectTemporalAnomalies (g : CitationGraph) (currentYear : Int) :
    Option CitationPattern :=
  let years := g.nodes.filterMap fun node =>
    match lookupVal node g.node_attributes with
    | some attrs => yearTruthy attrs.year
    | none => none
  if years.length < 5 then none
  else
    let recentCount := (years.filter (fun y => currentYear - 3 ≤ y)).length
    if recentCount = 0 then
      some { pattern_type := "temporal_anomaly".toList
             description := "No citations to recent work (last 3 years)".toList
             suspicion_score := 0.6
             evidence :=
               [ "Most recent citation year: ".toList ++
                   intToStr (listMaxInt years),
                 "Consider including more recent references".toList]
             affected_references := [] }
    else none

/-- Model of `PatternDetector.detect_patterns`: run the four detectors and
concatenate their results, in source order. -/
def detectPatterns (g : CitationGraph) (citations : List ExtractedCitation)
    (currentYear : Int) : List CitationPattern :=
  (detectClustering g).toList ++ detectCitationCartels g ++
    (detectConcentration g citations).toList ++
    (detectTemporalAnomalies g currentYear).toList

/-! ## Citation graph analyzer (`citation_graph_analyzer.py`) -/

/-- The aggregate analysis output (dataclass `CitationAnalysisResult`).
The timestamp is an opaque tick supplied by the caller, standing for
`datetime.now()`. -/
structure CitationAnalysisResult where
  manuscript_id : Str
  total_citations : Nat
  unique_citations : Nat
  self_citations : Nat
  self_citation_rate : ℚ
  citation_clusters : List (List Str)
  suspicious_patterns : List CitationPattern
  citation_network_density : ℚ
  temporal_distribution : List (Int × Nat)
  author_citation_diversity : ℚ
  analysis_timestamp : Nat
  risk_score : ℚ
  recommendations : List Str
deriving DecidableEq

/-- Model of `name.lower().split()[-1]`: the lower-cased last whitespace token of
a name; `none` models the `IndexError` raised when the name has no
non-whitespace characters. -/
def lastTokenLower (name : Str) : Option Str :=
  (pySplitWs (pyLower name)).getLast?

/-- The inner loop of `_count_self_citations` over one reference's
authors: stop at the first author whose last name is among the
manuscript authors; `none` models the `IndexError` on an empty author
name. -/
def refMatches (normalized : List Str) : List Str → Option Bool
  | [] => some false
  | a :: rest =>
    match lastTokenLower a with
    | none => none
    | some t => if t ∈ normalized then some true else refMatches normalized rest

/-- Model of `_count_self_citations`: count the references one of whose authors
shares a last name with a manuscript author.  The citations argument is
unused by the source as well. -/
def countSelfCitations (_citations : List ExtractedCitation)
    (references : List Reference) (author_names : List Str) : Option Nat :=
  if author_names.isEmpty then some 0
  else
    match author_names.mapM lastTokenLower with
    | none => none
    | some toks =>
      match references.mapM (fun r => refMatches toks r.authors) with
      | none => none
      | some bs => some (bs.countP (fun b => b))

/-- Model of `_explore_cluster`, fuel-bounded: stack-driven depth-first traversal.
The Python stack pops from the end and extends with the unvisited
neighbors; the model keeps the stack top at the head, so an extension
prepends the reversed neighbor list.  Returns the cluster (in visit
order) and the updated visited set. -/
def exploreF (g : CitationGraph) :
    Nat → List Str → List Str → List Str × List Str
  | 0, visited, _ => ([], visited)
  | _ + 1, visited, [] => ([], visited)
  | fuel + 1, visited, node :: rest =>
    if node ∈ visited then exploreF g fuel visited rest
    else
      let visited' := visited ++ [node]
      let ns := (getNeighbors g node).filter (fun n => ¬ n ∈ visited')
      let res := exploreF g fuel visited' (ns.reverse ++ rest)
      (node :: res.1, res.2)

/-- Fuel bound for the traversal: each visit pushes at most the degree
of the visited node, so the total number of stack pops is dominated by
this product. -/
def exploreFuel (g : CitationGraph) : Nat :=
  ((g.nodes ++ g.edges.map Prod.fst ++ g.edges.map Prod.snd).dedup).length *
    (2 * g.edges.length + 1) + 2

def exploreCluster (g : CitationGraph) (start : Str) (visited : List Str) :
    List Str × List Str :=
  exploreF g (exploreFuel g) visited [start]

/-- Model of `_find_clusters`: connected components of size at least two, found
by depth-first traversal from each unvisited node.  The fold state is
(clusters, visited). -/
def findClusters (g : CitationGraph) : List (List Str) :=
  (g.nodes.foldl
    (fun st node =>
      if node ∈ st.2 then st
      else
        let res := exploreCluster g node st.2
        if res.1.length > 1 then (st.1 ++ [res.1], res.2) else (st.1, res.2))
    ([], [])).1

/-- Model of `_calculate_network_density`: edge count over `N*(N-1)`; zero below
two nodes. -/
def networkDensity (g : CitationGraph) : ℚ :=
  let numNodes := g.nodes.length
  if numNodes < 2 then 0
  else
    let maxEdges := numNodes * (numNodes - 1)
    if maxEdges > 0 then (g.edges.length : ℚ) / (maxEdges : ℚ) else 0

/-- Model of `_analyze_temporal_distribution`: year-to-count histogram over the
references carrying a truthy year. -/
def temporalDistribution (references : List Reference) : List (Int × Nat) :=
  references.foldl
    (fun acc r =>
      match yearTruthy r.year with
      | some y => upsertCount y acc
      | none => acc) []

/-- Model of `_calculate_citation_diversity`: weighted combination of venue and
author diversity; zero without references.  The citations argument is
unused by the source as well. -/
def citationDiversity (_citations : List ExtractedCitation)
    (references : List Reference) : ℚ :=
  if references.isEmpty then 0
  else
    let venues := references.foldl
      (fun acc r =>
        match r.venue with
        | some v => if v.isEmpty then acc else setAdd acc (pyLower v)
        | none => acc) []
    let authors := references.foldl
      (fun acc r => r.authors.foldl (fun acc2 a => setAdd acc2 (pyLower a)) acc)
      []
    let venueDiversity :=
      min ((venues.length : ℚ) / ((max references.length 1 : ℕ) : ℚ)) 1
    let authorDiversity :=
      min ((authors.length : ℚ) / ((references.length * 2 : ℕ) : ℚ)) 1
    venueDiversity * 0.6 + authorDiversity * 0.4

/-- Model of `_calculate_citation_risk_score`: additive risk, capped at 1. -/
def riskScore (selfCitationRate : ℚ) (patterns : List CitationPattern)
    (density diversity : ℚ) : ℚ :=
  let r1 : ℚ :=
    if selfCitationRate > 0.3 then 0.3
    else if selfCitationRate > 0.2 then 0.15
    else 0
  let suspicious := patterns.filter (fun p => p.suspicion_score > 0.5)
  let r2 := r1 + min ((suspicious.length : ℚ) * 0.15) 0.4
  let r3 := r2 + (if density > 0.7 then 0.15 else 0)
  let r4 := r3 + (if diversity < 0.3 then 0.15 else 0)
  min r4 1

/-- Model of `_generate_recommendations`: fixed templates keyed on threshold
crossings. -/
def genRecommendations (selfCitationRate : ℚ)
    (patterns : List CitationPattern) (diversity : ℚ)
    (temporalDist : List (Int × Nat)) (currentYear : Int) : List Str :=
  let recs1 : List Str :=
    if selfCitationRate > 0.3 then
      [ "Self-citation rate is high (".toList ++ formatPct1 selfCitationRate ++
          "). Consider citing more diverse sources.".toList]
    else []
  let recs2 := recs1 ++
    (if diversity < 0.4 then
      [ "Citation diversity is low. Expand literature review to include more venues and authors.".toList]
    else [])
  let recs3 := recs2 ++
    (if ¬ temporalDist.isEmpty then
      (if (temporalDist.filter (fun yc => currentYear - 3 ≤ yc.1)).isEmpty then
        [ "Consider including more recent references (last 3 years).".toList]
      else [])
    else [])
  let suspicious := patterns.filter (fun p => p.suspicion_score > 0.6)
  recs3 ++
    (if ¬ suspicious.isEmpty then
      [ "Detected ".toList ++ natToStr suspicious.length ++
          " suspicious citation patterns. Review citation practices for potential manipulation.".toList]
    else [])

/-- Model of `CitationGraphAnalyzer.analyze`: extraction, graph construction,
pattern detection, aggregate metrics, risk and recommendations.  A
`None` author list coincides with the empty list because the source
immediately replaces it by `author_names or []`.  `currentYear` stands
for `datetime.now().year` and `timestamp` for `datetime.now()`; `none`
models an uncaught exception. -/
def analyze (manuscriptText : Str) (references : List Reference)
    (author_names : List Str) (currentYear : Int) (timestamp : Nat) :
    Option CitationAnalysisResult :=
  let citations := extractCitations manuscriptText references
  let graph := buildGraph citations references
  let patterns := detectPatterns graph citations currentYear
  let totalCitations := citations.length
  let uniqueCitations := (citations.map (fun c => c.reference_id)).dedup.length
  (countSelfCitations citations references author_names).map fun (selfCitations : ℕ) =>
    let selfCitationRate : ℚ :=
      (selfCitations : ℚ) / ((max totalCitations 1 : ℕ) : ℚ)
    let density := networkDensity graph
    let temporalDist := temporalDistribution references
    let diversity := citationDiversity citations references
    { manuscript_id := "manuscript".toList
      total_citations := totalCitations
      unique_citations := uniqueCitations
      self_citations := selfCitations
      self_citation_rate := selfCitationRate
      citation_clusters := findClusters graph
      suspicious_patterns := patterns.filter (fun p => p.suspicion_score > 0.5)
      citation_network_density := density
      temporal_distribution := temporalDist
      author_citation_diversity := diversity
      analysis_timestamp := timestamp
      risk_score := riskScore selfCitationRate patterns density diversity
      recommendations :=
        genRecommendations selfCitationRate patterns diversity temporalDist
          currentYear }

/-- Default result used when reading a field out of an optional result. -/
def emptyResult : CitationAnalysisResult :=
  { manuscript_id := []
    total_citations := 0
    unique_citations := 0
    self_citations := 0
    self_citation_rate := 0
    citation_clusters := []
    suspicious_patterns := []
    citation_network_density := 0
    temporal_distribution := []
    author_citation_diversity := 0
    analysis_timestamp := 0
    risk_score := 0
    recommendations := [] }

/-- Forget the timestamp field (for comparing two runs). -/
def stripTimestamp (r : CitationAnalysisResult) : CitationAnalysisResult :=
  { r with analysis_timestamp := 0 }

/-! ## Concrete inputs used by the witnesses and counterexamples -/

/-- A reference authored by Ann Smith, no venue. -/
def refSmithA : Reference :=
  { authors := [ "Ann Smith".toList], title := none, year := none, venue := none }

/-- A reference authored by Cal Smith, no venue. -/
def refSmithB : Reference :=
  { authors := [ "Cal Smith".toList], title := none, year := none, venue := none }

/-- A reference authored by Ann Smith, venue `v`. -/
def refVenueA : Reference :=
  { authors := [ "Ann Smith".toList], title := none, year := none,
    venue := some ( "v".toList) }

/-- A reference authored by Cal Smith, venue `v`. -/
def refVenueB : Reference :=
  { authors := [ "Cal Smith".toList], title := none, year := none,
    venue := some ( "v".toList) }

/-- A citation of reference 1 in context `ctxA`. -/
def citCtxA1 : ExtractedCitation :=
  { reference_id := "1".toList, position := 0, context := "ctxA".toList,
    sentence := [], citation_type := "support".toList }

/-- A citation of reference 2 in context `ctxA`. -/
def citCtxA2 : ExtractedCitation :=
  { reference_id := "2".toList, position := 0, context := "ctxA".toList,
    sentence := [], citation_type := "support".toList }

/-- A citation of reference 1 in context `ctxB`. -/
def citCtxB1 : ExtractedCitation :=
  { reference_id := "1".toList, position := 0, context := "ctxB".toList,
    sentence := [], citation_type := "support".toList }

/-- A citation of reference 2 in context `ctxB`. -/
def citCtxB2 : ExtractedCitation :=
  { reference_id := "2".toList, position := 0, context := "ctxB".toList,
    sentence := [], citation_type := "support".toList }

/-- Type tag of an edge, read from the attribute dictionary. -/
def edgeTypeOf (g : CitationGraph) (e : Str × Str) : Str :=
  (lookupVal e g.edge_attributes).getD []

/-- Number of edges of a given type between an unordered pair of ids. -/
def typedEdgeCount (g : CitationGraph) (a b : Str) (ty : Str) : Nat :=
  (g.edges.filter fun e =>
    decide (((e.1 = a ∧ e.2 = b) ∨ (e.1 = b ∧ e.2 = a)) ∧
      edgeTypeOf g e = ty)).length

/-- Manuscript text citing references 1 and 2 together twice in one
sentence: four citations sharing one context. -/
def txtDense : Str := "See [1-2] and [1-2] now.".toList

/-- Two ordered edges describe the same unordered pair. -/
def unordEq (e f : Str × Str) : Prop := e = f ∨ e = (f.2, f.1)

/-- Number of citations resolving to a given reference id. -/
def citedCount (cits : List ExtractedCitation) (id : Str) : Nat :=
  cits.countP (fun c => decide (c.reference_id = id))

/-- The largest per-reference citation count: the maximum
single-reference citation tally of the extracted-citation list. -/
def maxCited (cits : List ExtractedCitation) : Nat :=
  listMaxNat (cits.map (fun c => citedCount cits c.reference_id))

/-- Dictionary value with Python `d.get(k, 0)` semantics. -/
def valueOf (k : α) [DecidableEq α] (l : List (α × Nat)) : Nat :=
  (lookupVal k l).getD 0

/-- Graph with one co-citation edge between references 1 and 2. -/
def graphPairW : CitationGraph :=
  buildGraph [citCtxA1, citCtxA2] [refSmithA, refSmithB]

/-- The text of a bracketed list marker with the given items:
`"a, b, c"` (the group captured inside `[a, b, c]`). -/
def joinCommaSpace : List Str → Str
  | [] => []
  | [x] => x
  | x :: y :: rest => x ++ ',' :: ' ' :: joinCommaSpace (y :: rest)

/-- Containment of a contiguous block: `l` holds `b` as one
uninterrupted run. -/
def containsBlock {α : Type} (l b : List α) : Prop :=
  ∃ pre post, l = pre ++ b ++ post

/-- The tail of a comma-space joined item list: one `", x"` group per
remaining item. -/
def sepChain : List Str → Str
  | [] => []
  | x :: rest => ',' :: ' ' :: (x ++ sepChain rest)

/-- Manuscript text with a range marker in its first sentence and a
list marker in its second. -/
def txt8 : Str := "We use [2-4] here. And [12, 3] also.".toList

/-! ## Supporting lemmas: decimal ids and graph node sets -/

theorem digitChar_eval : ∀ n, n < 10 → (digitChar n).toNat - 48 = n := by decide

theorem digitsVal_append_digit (a : Str) (c : Char) :
    digitsVal (a ++ [c]) = 10 * digitsVal a + (c.toNat - 48) := by
  simp [digitsVal, List.foldl_append]

theorem digitsVal_natToStrF :
    ∀ fuel n, n < fuel → digitsVal (natToStrF fuel n) = n := by
  intro fuel
  induction fuel with
  | zero => intro n h; omega
  | succ fuel ih =>
    intro n h
    by_cases h10 : n < 10
    · rw [natToStrF, if_pos h10]
      have hd := digitChar_eval n h10
      simp [digitsVal]
      omega
    · rw [natToStrF, if_neg h10]
      rw [digitsVal_append_digit]
      rw [ih (n / 10) (by
        have : n / 10 < n := Nat.div_lt_self (by omega) (by omega)
        omega)]
      have hd := digitChar_eval (n % 10) (Nat.mod_lt n (by omega))
      omega

theorem digitsVal_natToStr (n : Nat) : digitsVal (natToStr n) = n :=
  digitsVal_natToStrF (n + 1) n (by omega)

theorem natToStr_inj : Function.Injective natToStr := by
  intro a b h
  have ha := digitsVal_natToStr a
  have hb := digitsVal_natToStr b
  rw [← ha, ← hb, h]

theorem foldl_nodes_const {α : Type} (f : CitationGraph → α → CitationGraph)
    (hf : ∀ g x, (f g x).nodes = g.nodes) :
    ∀ (l : List α) (g : CitationGraph), (l.foldl f g).nodes = g.nodes := by
  intro l
  induction l with
  | nil => intro g; rfl
  | cons x t ih => intro g; rw [List.foldl_cons, ih, hf]

theorem addCoCitationEdges_nodes (g : CitationGraph)
    (cits : List ExtractedCitation) :
    (addCoCitationEdges g cits).nodes = g.nodes := by
  unfold addCoCitationEdges
  apply foldl_nodes_const
  intro g' p
  by_cases h : p.1 ∈ g'.nodes ∧ p.2 ∈ g'.nodes <;> simp [h, addEdge]

theorem addCouplingEdges_nodes (g : CitationGraph) (refs : List Reference) :
    (addCouplingEdges g refs).nodes = g.nodes := by
  unfold addCouplingEdges
  apply foldl_nodes_const
  intro g' p
  by_cases h1 : p.1 ∈ g'.nodes ∧ p.2 ∈ g'.nodes
  · by_cases h2 : (p.1, p.2) ∈ g'.edges ∨ (p.2, p.1) ∈ g'.edges <;>
      simp [h1, h2, addEdge]
  · simp [h1]

theorem addNode_foldl_nodes {α : Type} (key : α → Str) (f : α → NodeAttrs) :
    ∀ (l : List α) (g : CitationGraph),
      (∀ x ∈ l, key x ∉ g.nodes) → (l.map key).Nodup →
      (l.foldl (fun g' x => addNode g' (key x) (f x)) g).nodes =
        g.nodes ++ l.map key := by
  intro l
  induction l with
  | nil => intro g _ _; simp
  | cons x t ih =>
    intro g hk hnd
    rw [List.foldl_cons]
    have hx : key x ∉ g.nodes := hk x (by simp)
    have hnodes : (addNode g (key x) (f x)).nodes = g.nodes ++ [key x] := by
      simp [addNode, setAdd, hx]
    rw [List.map_cons] at hnd ⊢
    have hnd' := List.nodup_cons.mp hnd
    rw [ih (addNode g (key x) (f x)) ?_ hnd'.2]
    · rw [hnodes, List.append_assoc]
      rfl
    · intro y hy
      rw [hnodes]
      simp only [List.mem_append, List.mem_singleton]
      push_neg
      constructor
      · exact hk y (by simp [hy])
      · intro heq
        exact hnd'.1 (heq ▸ List.mem_map_of_mem key hy)

theorem addReferenceNodes_nodes (refs : List Reference) :
    (addReferenceNodes refs).nodes =
      (List.range refs.length).map (fun i => natToStr (i + 1)) := by
  unfold addReferenceNodes
  rw [addNode_foldl_nodes (fun ir => natToStr (ir.1 + 1))
      (fun ir => { title := ir.2.title.getD [], year := ir.2.year,
                   authors := ir.2.authors, venue := ir.2.venue.getD [] })
      refs.enum _ (by intro x hx; simp) ?_]
  · have : refs.enum.map (fun ir => natToStr (ir.1 + 1)) =
        (List.range refs.length).map (fun i => natToStr (i + 1)) := by
      rw [← List.enum_map_fst refs, List.map_map]
      rfl
    rw [this]
    rfl
  · have : refs.enum.map (fun ir => natToStr (ir.1 + 1)) =
        (List.range refs.length).map (fun i => natToStr (i + 1)) := by
      rw [← List.enum_map_fst refs, List.map_map]
      rfl
    rw [this]
    exact List.Nodup.map (fun a b hab => by
      have := natToStr_inj hab
      omega) (List.nodup_range refs.length)

/-- Node set of `build_graph`: exactly the ids `"1" .. "N"` of all
supplied references, independent of the citations. -/
theorem buildGraph_nodes (cits : List ExtractedCitation)
    (refs : List Reference) :
    (buildGraph cits refs).nodes =
      (List.range refs.length).map (fun i => natToStr (i + 1)) := by
  unfold buildGraph
  rw [addCouplingEdges_nodes, addCoCitationEdges_nodes, addReferenceNodes_nodes]

/-! ## Claim C2 -/

/-- Claim C2 (code bug): the claim says `analyze` never raises, in
particular not for empty author-name strings; but on manuscript text
`""`, no references and author list `[""]`, `_count_self_citations`
evaluates `"".split()[-1]`, raising `IndexError` — the embedding
returns the error value `none`. -/
theorem claim2_failing_eval : analyze [] [] [[]] 2026 0 = none := by decide

/-! ## Claim C9 -/

/-- Claim C9 (confirmed): with the current-year reference point fixed,
two runs of `analyze` on identical inputs agree on every field except
the analysis timestamp. -/
theorem claim9_determinism (text : Str) (references : List Reference)
    (author_names : List Str) (currentYear : Int) (t1 t2 : Nat) :
    (analyze text references author_names currentYear t1).map stripTimestamp =
      (analyze text references author_names currentYear t2).map stripTimestamp := by
  cases h : countSelfCitations (extractCitations text references) references
      author_names with
  | none => simp [analyze, h]
  | some sc => simp [analyze, h, stripTimestamp]

/-! ## Claim C4: counterexample -/

/-- Claim C4 is false as stated: with the empty extracted-citation list
(no reference is referenced even once), `build_graph` still creates the
node `"1"` for the single supplied reference, so the node set is not
the set of referenced ids (which would be empty). -/
theorem claim4_cx :
    (buildGraph ([] : List ExtractedCitation) [refSmithA]).nodes = [ "1".toList] ∧
      (buildGraph ([] : List ExtractedCitation) [refSmithA]).nodes ≠ [] := by
  decide

/-- Claim C4 amended: the node set of `build_graph` is the set of all
reference ids `1..N` assigned by position, regardless of whether a
reference is ever cited. -/
theorem claim4_amended (cits : List ExtractedCitation) (refs : List Reference) :
    (buildGraph cits refs).nodes =
      (List.range refs.length).map (fun i => natToStr (i + 1)) :=
  buildGraph_nodes cits refs

/-! ## Claim C5: counterexample -/

/-- Claim C5 is false as stated: on `"Work on [9] is done. See [1]."`
the two extracted citations carry positions 8 and then 4 (offsets are
sentence-relative), so the returned list is not ordered by position. -/
theorem claim5_cx :
    ¬ (extractCitations ( "Work on [9] is done. See [1].".toList) []).Pairwise
        (fun c d => c.position ≤ d.position) := by
  decide

/-! ## Claim C5: amended -/


theorem takeRun_length_le (p : Char → Bool) (s a r : Str)
    (h : takeRun p s = some (a, r)) : r.length ≤ s.length := by
  unfold takeRun at h
  dsimp only at h
  split at h
  · cases h
  · rw [Option.some_inj] at h
    injection h with h1 h2
    rw [← h2]
    exact (List.dropWhile_sublist p).length_le

theorem litChar_length (c : Char) (s r : Str) (h : litChar c s = some r) :
    r.length < s.length := by
  cases s with
  | nil => cases h
  | cons x t =>
    simp only [litChar] at h
    split at h
    · rw [Option.some_inj] at h
      subst h
      simp
    · cases h

theorem litClass_length (p : Char → Bool) (s r : Str)
    (h : litClass p s = some r) : r.length < s.length := by
  cases s with
  | nil => cases h
  | cons x t =>
    simp only [litClass] at h
    split at h
    · rw [Option.some_inj] at h
      subst h
      simp
    · cases h

theorem litStr_length_le :
    ∀ (pre s r : Str), litStr pre s = some r → r.length ≤ s.length := by
  intro pre
  induction pre with
  | nil =>
    intro s r h
    simp only [litStr] at h
    rw [Option.some_inj] at h
    subst h
    exact le_refl _
  | cons c cs ih =>
    intro s r h
    simp only [litStr] at h
    rw [Option.bind_eq_some] at h
    obtain ⟨t, h1, h2⟩ := h
    have ha := litChar_length c s t h1
    have hb := ih t r h2
    omega

theorem digits4_length_le (s r : Str) (h : digits4 s = some r) :
    r.length ≤ s.length := by
  unfold digits4 at h
  split at h
  · rw [Option.some_inj] at h
    subst h
    simp
  · cases h

theorem dropWhileSpace_length_le (s : Str) :
    (s.dropWhile isSpaceChar).length ≤ s.length :=
  (List.dropWhile_sublist isSpaceChar).length_le

theorem listTailF_length_le : ∀ (fuel : Nat) (s : Str),
    (listTailF fuel s).length ≤ s.length := by
  intro fuel
  induction fuel with
  | zero => intro s; exact le_refl _
  | succ fuel ih =>
    intro s
    rw [listTailF]
    split
    · exact le_refl _
    · rename_i t1 hlit
      split
      · exact le_refl _
      · rename_i a t3 htr
        have h1 := litChar_length ',' s t1 hlit
        have h2 := takeRun_length_le Char.isDigit (t1.dropWhile isSpaceChar)
          a t3 htr
        have h3 := dropWhileSpace_length_le t1
        have h4 := ih t3
        omega

theorem matcherNumList_shrink (s g r : Str)
    (h : matcherNumList s = some (g, r)) : r.length < s.length := by
  unfold matcherNumList at h
  split at h
  · rename_i t
    simp only [Bind.bind] at h
    rw [Option.bind_eq_some] at h
    obtain ⟨x, hx, h⟩ := h
    rcases x with ⟨d, r1⟩
    dsimp only at h
    rw [Option.bind_eq_some] at h
    obtain ⟨r3, h3, hfin⟩ := h
    rw [Option.some_inj] at hfin
    injection hfin with hg hr
    subst hr
    have e1 := takeRun_length_le Char.isDigit t d r1 hx
    have e2 : (listTail r1).length ≤ r1.length := listTailF_length_le _ _
    have e3 := litChar_length ']' (listTail r1) r3 h3
    simp only [List.length_cons]
    omega
  · cases h

theorem matcherNumRange_shrink (s g r : Str)
    (h : matcherNumRange s = some (g, r)) : r.length < s.length := by
  unfold matcherNumRange at h
  split at h
  · rename_i t
    simp only [Bind.bind] at h
    rw [Option.bind_eq_some] at h
    obtain ⟨x, hx, h⟩ := h
    rcases x with ⟨d1, r1⟩
    dsimp only at h
    rw [Option.bind_eq_some] at h
    obtain ⟨r2, h2, h⟩ := h
    rw [Option.bind_eq_some] at h
    obtain ⟨y, hy, h⟩ := h
    rcases y with ⟨d2, r3⟩
    dsimp only at h
    rw [Option.bind_eq_some] at h
    obtain ⟨r4, h4, hfin⟩ := h
    rw [Option.some_inj] at hfin
    injection hfin with hg hr
    subst hr
    have e1 := takeRun_length_le Char.isDigit t d1 r1 hx
    have e2 := litChar_length '-' r1 r2 h2
    have e3 := takeRun_length_le Char.isDigit r2 d2 r3 hy
    have e4 := litChar_length ']' r3 r4 h4
    simp only [List.length_cons]
    omega
  · cases h

theorem matcherEtAl_shrink (s g r : Str)
    (h : matcherEtAl s = some (g, r)) : r.length < s.length := by
  unfold matcherEtAl at h
  split at h
  · rename_i t
    simp only [Bind.bind] at h
    rw [Option.bind_eq_some] at h
    obtain ⟨r1, h1, h⟩ := h
    rw [Option.bind_eq_some] at h
    obtain ⟨x, hx, h⟩ := h
    rcases x with ⟨w2, r2⟩
    dsimp only at h
    rw [Option.bind_eq_some] at h
    obtain ⟨y, hy, h⟩ := h
    rcases y with ⟨w3, r3⟩
    dsimp only at h
    rw [Option.bind_eq_some] at h
    obtain ⟨r4, h4, h⟩ := h
    rw [Option.bind_eq_some] at h
    obtain ⟨z, hz, h⟩ := h
    rcases z with ⟨w5, r5⟩
    dsimp only at h
    rw [Option.bind_eq_some] at h
    obtain ⟨r6, h6, h⟩ := h
    rw [Option.bind_eq_some] at h
    obtain ⟨r7, h7, h⟩ := h
    rw [Option.bind_eq_some] at h
    obtain ⟨r8, h8, hfin⟩ := h
    rw [Option.some_inj] at hfin
    injection hfin with hg hr
    subst hr
    have e1 := litClass_length Char.isUpper t r1 h1
    have e2 := takeRun_length_le Char.isLower r1 w2 r2 hx
    have e3 := takeRun_length_le isSpaceChar r2 w3 r3 hy
    have e4 := litStr_length_le _ r3 r4 h4
    have e5 := takeRun_length_le isSpaceChar r4 w5 r5 hz
    have e6 := litStr_length_le _ r5 r6 h6
    have e7 := digits4_length_le _ r7 h7
    have e8 := dropWhileSpace_length_le r6
    have e9 := litChar_length ')' r7 r8 h8
    simp only [List.length_cons]
    omega
  · cases h

theorem matcherAnd_shrink (s g r : Str)
    (h : matcherAnd s = some (g, r)) : r.length < s.length := by
  unfold matcherAnd at h
  split at h
  · rename_i t
    simp only [Bind.bind] at h
    rw [Option.bind_eq_some] at h
    obtain ⟨r1, h1, h⟩ := h
    rw [Option.bind_eq_some] at h
    obtain ⟨x, hx, h⟩ := h
    rcases x with ⟨w2, r2⟩
    dsimp only at h
    rw [Option.bind_eq_some] at h
    obtain ⟨y, hy, h⟩ := h
    rcases y with ⟨w3, r3⟩
    dsimp only at h
    rw [Option.bind_eq_some] at h
    obtain ⟨r4, h4, h⟩ := h
    rw [Option.bind_eq_some] at h
    obtain ⟨z, hz, h⟩ := h
    rcases z with ⟨w5, r5⟩
    dsimp only at h
    rw [Option.bind_eq_some] at h
    obtain ⟨r6, h6, h⟩ := h
    rw [Option.bind_eq_some] at h
    obtain ⟨w7, hw7, h⟩ := h
    rcases w7 with ⟨w7a, r7⟩
    dsimp only at h
    rw [Option.bind_eq_some] at h
    obtain ⟨r8, h8, h⟩ := h
    rw [Option.bind_eq_some] at h
    obtain ⟨r9, h9, h⟩ := h
    rw [Option.bind_eq_some] at h
    obtain ⟨r10, h10, hfin⟩ := h
    rw [Option.some_inj] at hfin
    injection hfin with hg hr
    subst hr
    have e1 := litClass_length Char.isUpper t r1 h1
    have e2 := takeRun_length_le Char.isLower r1 w2 r2 hx
    have e3 := takeRun_length_le isSpaceChar r2 w3 r3 hy
    have e4 := litStr_length_le _ r3 r4 h4
    have e5 := takeRun_length_le isSpaceChar r4 w5 r5 hz
    have e6 := litClass_length Char.isUpper r5 r6 h6
    have e7 := takeRun_length_le Char.isLower r6 w7a r7 hw7
    have e8 := litChar_length ',' r7 r8 h8
    have e9 := digits4_length_le _ r9 h9
    have e10 := dropWhileSpace_length_le r8
    have e11 := litChar_length ')' r9 r10 h10
    simp only [List.length_cons]
    omega
  · cases h




theorem matcher_shrink_all :
    ∀ m ∈ matcherList, ∀ s g r, m s = some (g, r) → r.length < s.length := by
  intro m hm
  simp only [matcherList, List.mem_cons, List.mem_singleton] at hm
  rcases hm with rfl | rfl | rfl | rfl | hm
  · exact matcherNumList_shrink
  · exact matcherNumRange_shrink
  · exact matcherEtAl_shrink
  · exact matcherAnd_shrink
  · cases hm




theorem finditerF_lb (m : Matcher) :
    ∀ (fuel i : Nat) (s : Str), ∀ x ∈ finditerF m fuel i s, i ≤ x.1 := by
  intro fuel
  induction fuel with
  | zero => intro i s x hx; cases hx
  | succ fuel ih =>
    intro i s x hx
    rw [finditerF] at hx
    cases hms : m s with
    | some gr =>
      rcases gr with ⟨g, rest⟩
      rw [hms] at hx
      simp only [finditerBody] at hx
      rcases List.mem_cons.mp hx with rfl | hx2
      · exact le_refl _
      · have := ih _ _ x hx2
        omega
    | none =>
      rw [hms] at hx
      simp only [finditerBody] at hx
      cases s with
      | nil => cases hx
      | cons c t =>
        have := ih (i + 1) t x hx
        omega

theorem finditerF_pairwise (m : Matcher)
    (hm : ∀ s g r, m s = some (g, r) → r.length < s.length) :
    ∀ (fuel i : Nat) (s : Str),
      (finditerF m fuel i s).Pairwise (fun x y => x.1 < y.1) := by
  intro fuel
  induction fuel with
  | zero => intro i s; exact List.Pairwise.nil
  | succ fuel ih =>
    intro i s
    rw [finditerF]
    cases hms : m s with
    | some gr =>
      rcases gr with ⟨g, rest⟩
      simp only [finditerBody]
      refine List.pairwise_cons.mpr ⟨?_, ih _ _⟩
      intro y hy
      have hlb := finditerF_lb m fuel (i + (s.length - rest.length)) rest y hy
      have hlen := hm s g rest hms
      simp only
      omega
    | none =>
      simp only [finditerBody]
      cases s with
      | nil => exact List.Pairwise.nil
      | cons c t => exact ih (i + 1) t



theorem pairwise_of_forall_mem {α : Type} {R : α → α → Prop} :
    ∀ (l : List α), (∀ a ∈ l, ∀ b ∈ l, R a b) → l.Pairwise R := by
  intro l
  induction l with
  | nil => intro _; exact List.Pairwise.nil
  | cons x t ih =>
    intro h
    refine List.pairwise_cons.mpr ⟨?_, ?_⟩
    · intro b hb
      exact h x (by simp) b (by simp [hb])
    · exact ih (fun a ha b hb => h a (by simp [ha]) b (by simp [hb]))

theorem flatMap_position_pairwise (l : List (Nat × Str))
    (mk : Nat × Str → List ExtractedCitation)
    (hmk : ∀ pg c, c ∈ mk pg → c.position = pg.1)
    (hp : l.Pairwise (fun x y => x.1 < y.1)) :
    (l.flatMap mk).Pairwise (fun c d => c.position ≤ d.position) := by
  induction l with
  | nil => exact List.Pairwise.nil
  | cons hd tl ih =>
    rw [List.flatMap_cons, List.pairwise_append]
    rcases List.pairwise_cons.mp hp with ⟨hhd, htl⟩
    refine ⟨?_, ih htl, ?_⟩
    · apply pairwise_of_forall_mem
      intro a ha b hb
      rw [hmk hd a ha, hmk hd b hb]
    · intro a ha b hb
      rw [hmk hd a ha]
      rcases List.mem_flatMap.mp hb with ⟨y, hy, hby⟩
      rw [hmk y b hby]
      exact le_of_lt (hhd y hy)

theorem citationsOfMatch_pairwise (sentences : List Str) (i : Nat)
    (sentence : Str) (m : Matcher)
    (hm : ∀ s g r, m s = some (g, r) → r.length < s.length) :
    (citationsOfMatch sentences i sentence m).Pairwise
      (fun c d => c.position ≤ d.position) := by
  unfold citationsOfMatch
  apply flatMap_position_pairwise
  · intro pg c hc
    rcases List.mem_map.mp hc with ⟨rid, _, h⟩
    rw [← h]
  · unfold finditer
    exact finditerF_pairwise m hm _ _ _

theorem flatMap_flatMap_eq_flatten {α β γ : Type} (l1 : List α)
    (l2 : List β) (F : α → β → List γ) :
    (l1.flatMap fun a => l2.flatMap (F a)) =
      (l1.flatMap fun a => l2.map (F a)).flatten := by
  induction l1 with
  | nil => rfl
  | cons a t ih =>
    rw [List.flatMap_cons, List.flatMap_cons, List.flatten_append, ih]
    rw [List.flatMap_def]

/-- Claim C5 amended: the extracted-citation list is the concatenation
of one block per (marker grammar, sentence) pair, in grammar-then-
sentence order, and within each block the sentence-relative positions
are nondecreasing; the whole list need not be ordered by position. -/
theorem claim5_amended (text : Str) (references : List Reference) :
    extractCitations text references = (extractBlocks text).flatten ∧
    ∀ b ∈ extractBlocks text,
      b.Pairwise (fun c d => c.position ≤ d.position) := by
  constructor
  · unfold extractCitations extractBlocks
    exact flatMap_flatMap_eq_flatten matcherList (splitSentences text).enum
      (fun m is => citationsOfMatch (splitSentences text) is.1 is.2 m)
  · intro b hb
    unfold extractBlocks at hb
    rcases List.mem_flatMap.mp hb with ⟨m, hm, hb2⟩
    rcases List.mem_map.mp hb2 with ⟨is, _, h⟩
    rw [← h]
    exact citationsOfMatch_pairwise _ _ _ m (matcher_shrink_all m hm)

/-! ## Claim C6: counterexample -/

/-- Claim C6 is false as stated: two citations of references 1 and 2 in
one context plus two more in a second context produce two co-citation
edges between the same unordered pair. -/
theorem claim6_cx :
    ¬ typedEdgeCount
        (buildGraph [citCtxA1, citCtxA2, citCtxB1, citCtxB2]
          [refSmithA, refSmithB])
        ( "1".toList) ( "2".toList) ( "co-citation".toList) ≤ 1 := by
  decide

/-! ## Claim C6: amended -/

theorem unordEq_symm {e f : Str × Str} (h : unordEq e f) : unordEq f e := by
  rcases h with h | h
  · exact Or.inl h.symm
  · right
    rw [h]

/-- The coupling pass only appends edges, every appended edge is between
an unordered pair not previously connected, and no unordered pair is
appended twice — an induction along the candidate-pair loop, carried by
the membership guard checked in both orientations. -/
theorem couplingStep_fold_spec :
    ∀ (cands : List (Str × Str)) (g : CitationGraph),
      ∃ S, (cands.foldl
          (fun g' p =>
            if p.1 ∈ g'.nodes ∧ p.2 ∈ g'.nodes then
              if (p.1, p.2) ∈ g'.edges ∨ (p.2, p.1) ∈ g'.edges then g'
              else addEdge g' p.1 p.2 ( "coupling".toList)
            else g') g).edges = g.edges ++ S ∧
        S.Pairwise (fun e f => ¬ unordEq e f) ∧
        ∀ e ∈ S, ∀ f ∈ g.edges, ¬ unordEq e f := by
  intro cands
  induction cands with
  | nil =>
    intro g
    exact ⟨[], by simp, List.Pairwise.nil, by simp⟩
  | cons p rest ih =>
    intro g
    rw [List.foldl_cons]
    by_cases h1 : p.1 ∈ g.nodes ∧ p.2 ∈ g.nodes
    · by_cases h2 : (p.1, p.2) ∈ g.edges ∨ (p.2, p.1) ∈ g.edges
      · rw [if_pos h1, if_pos h2]
        exact ih g
      · rw [if_pos h1, if_neg h2]
        obtain ⟨S, hE, hP, hD⟩ := ih (addEdge g p.1 p.2 ( "coupling".toList))
        push_neg at h2
        refine ⟨(p.1, p.2) :: S, ?_, ?_, ?_⟩
        · rw [hE]
          simp [addEdge]
        · refine List.pairwise_cons.mpr ⟨?_, hP⟩
          intro e' he' hu
          refine hD e' he' (p.1, p.2) ?_ (unordEq_symm hu)
          simp [addEdge]
        · intro e he f hf hu
          rcases List.mem_cons.mp he with he2 | he2
          · subst he2
            rcases hu with h3 | h3
            · exact h2.1 (by rw [h3]; exact hf)
            · injection h3 with ha hb
              have hfeq : (p.2, p.1) = f := by
                rw [hb, ha]
              rw [← hfeq] at hf
              exact h2.2 hf
          · exact hD e he2 f (by simp [addEdge, hf]) hu
    · rw [if_neg h1]
      exact ih g

theorem addCouplingEdges_edges_spec (g : CitationGraph)
    (refs : List Reference) :
    ∃ S, (addCouplingEdges g refs).edges = g.edges ++ S ∧
      S.Pairwise (fun e f => ¬ unordEq e f) ∧
      ∀ e ∈ S, ∀ f ∈ g.edges, ¬ unordEq e f := by
  unfold addCouplingEdges
  exact couplingStep_fold_spec (couplingCandidates refs) g

/-- Claim C6 amended: in every graph produced by `build_graph`, the
edges appended by the coupling pass (the suffix after the co-citation
edges) are pairwise distinct as unordered pairs and disjoint, as
unordered pairs, from the co-citation edges; so each unordered pair
carries at most one coupling edge.  Co-citation edges carry no such
guarantee (see the counterexample). -/
theorem claim6_amended (cits : List ExtractedCitation)
    (refs : List Reference) :
    (buildGraph cits refs).edges.take
        (addCoCitationEdges (addReferenceNodes refs) cits).edges.length =
      (addCoCitationEdges (addReferenceNodes refs) cits).edges ∧
    ((buildGraph cits refs).edges.drop
        (addCoCitationEdges (addReferenceNodes refs) cits).edges.length).Pairwise
      (fun e f => ¬ unordEq e f) ∧
    ∀ e ∈ (buildGraph cits refs).edges.drop
        (addCoCitationEdges (addReferenceNodes refs) cits).edges.length,
      ∀ f ∈ (addCoCitationEdges (addReferenceNodes refs) cits).edges,
        ¬ unordEq e f := by
  obtain ⟨S, hE, hP, hD⟩ :=
    addCouplingEdges_edges_spec (addCoCitationEdges (addReferenceNodes refs) cits)
      refs
  unfold buildGraph
  rw [hE, List.take_left, List.drop_left]
  exact ⟨rfl, hP, hD⟩

/-! ## Claim C1: counterexample -/

/-- Claim C1 is false as stated: with no citations and two references
authored by a manuscript author, the self-citation rate evaluates to
2/1 = 2 > 1; and with two references co-cited twice in one context,
six co-citation edges accumulate between two nodes, so the network
density evaluates to 6/2 = 3 > 1.  Neither score is clamped. -/
theorem claim1_cx :
    (¬ ((analyze [] [refSmithA, refSmithB] [ "Bob Smith".toList] 2026 0).getD
        emptyResult).self_citation_rate ≤ 1) ∧
    (analyze [] [refSmithA, refSmithB] [ "Bob Smith".toList] 2026 0).isSome = true ∧
    (¬ ((analyze txtDense [refSmithA, refSmithB] [] 2026 0).getD
        emptyResult).citation_network_density ≤ 1) ∧
    (analyze txtDense [refSmithA, refSmithB] [] 2026 0).isSome = true := by
  refine ⟨?_, by decide, ?_, by decide⟩
  · have h : ((analyze [] [refSmithA, refSmithB] [ "Bob Smith".toList] 2026 0).getD
        emptyResult).self_citation_rate = ((2 : ℕ) : ℚ) / ((1 : ℕ) : ℚ) := rfl
    rw [h]
    push_cast
    norm_num
  · have h : ((analyze txtDense [refSmithA, refSmithB] [] 2026 0).getD
        emptyResult).citation_network_density = ((6 : ℕ) : ℚ) / ((2 : ℕ) : ℚ) := rfl
    rw [h]
    push_cast
    norm_num

/-! ## Claim C3: counterexample -/

/-- Claim C3 is false as stated: on empty manuscript text (hence an
empty citation set) with two same-venue references authored by a
manuscript author, the self-citation rate is 2, the density 1/2 (one
coupling edge between the two reference nodes) and the diversity 1/2 —
none of the three degrade to zero. -/
theorem claim3_cx :
    extractCitations [] [refVenueA, refVenueB] = [] ∧
    (analyze [] [refVenueA, refVenueB] [ "Dee Smith".toList] 2026 0).isSome = true ∧
    (¬ ((analyze [] [refVenueA, refVenueB] [ "Dee Smith".toList] 2026 0).getD
        emptyResult).self_citation_rate = 0) ∧
    (¬ ((analyze [] [refVenueA, refVenueB] [ "Dee Smith".toList] 2026 0).getD
        emptyResult).citation_network_density = 0) ∧
    (¬ ((analyze [] [refVenueA, refVenueB] [ "Dee Smith".toList] 2026 0).getD
        emptyResult).author_citation_diversity = 0) := by
  refine ⟨by decide, by decide, ?_, ?_, ?_⟩
  · have h : ((analyze [] [refVenueA, refVenueB] [ "Dee Smith".toList] 2026 0).getD
        emptyResult).self_citation_rate = ((2 : ℕ) : ℚ) / ((1 : ℕ) : ℚ) := rfl
    rw [h]
    push_cast
    norm_num
  · have h : ((analyze [] [refVenueA, refVenueB] [ "Dee Smith".toList] 2026 0).getD
        emptyResult).citation_network_density = ((1 : ℕ) : ℚ) / ((2 : ℕ) : ℚ) := rfl
    rw [h]
    push_cast
    norm_num
  · have h : ((analyze [] [refVenueA, refVenueB] [ "Dee Smith".toList] 2026 0).getD
        emptyResult).author_citation_diversity =
        min (((1 : ℕ) : ℚ) / ((2 : ℕ) : ℚ)) 1 * 0.6 +
          min (((2 : ℕ) : ℚ) / ((4 : ℕ) : ℚ)) 1 * 0.4 := rfl
    rw [h]
    push_cast
    norm_num [min_def]

/-! ## Claim C1: amended -/

theorem networkDensity_nonneg (g : CitationGraph) : 0 ≤ networkDensity g := by
  unfold networkDensity
  dsimp only
  split
  · exact le_refl 0
  · split
    · positivity
    · exact le_refl 0

theorem combo_bounds (x y : ℚ) (hx : 0 ≤ x) (hy : 0 ≤ y) :
    0 ≤ min x 1 * 0.6 + min y 1 * 0.4 ∧ min x 1 * 0.6 + min y 1 * 0.4 ≤ 1 := by
  have h1 : (0 : ℚ) ≤ min x 1 := le_min hx (by norm_num)
  have h2 : min x 1 ≤ 1 := min_le_right x 1
  have h3 : (0 : ℚ) ≤ min y 1 := le_min hy (by norm_num)
  have h4 : min y 1 ≤ 1 := min_le_right y 1
  constructor <;> nlinarith

theorem citationDiversity_bounds (cits : List ExtractedCitation)
    (refs : List Reference) :
    0 ≤ citationDiversity cits refs ∧ citationDiversity cits refs ≤ 1 := by
  unfold citationDiversity
  by_cases h : refs.isEmpty = true
  · rw [if_pos h]
    norm_num
  · rw [if_neg h]
    exact combo_bounds _ _ (by positivity) (by positivity)

theorem riskScore_bounds (rate : ℚ) (ps : List CitationPattern) (d v : ℚ) :
    0 ≤ riskScore rate ps d v ∧ riskScore rate ps d v ≤ 1 := by
  unfold riskScore
  constructor
  · refine le_min ?_ (by norm_num)
    have hmin : (0 : ℚ) ≤
        min ((↑(ps.filter (fun p => p.suspicion_score > 0.5)).length : ℚ) * 0.15)
          0.4 :=
      le_min (by positivity) (by norm_num)
    split_ifs <;> nlinarith
  · exact min_le_right _ 1

theorem detectClustering_suspicion (g : CitationGraph) (p : CitationPattern)
    (h : detectClustering g = some p) :
    0 ≤ p.suspicion_score ∧ p.suspicion_score ≤ 1 := by
  unfold detectClustering at h
  split at h
  · cases h
  · dsimp only at h
    split at h
    · cases h
    · split at h
      · rename_i havg
        rw [Option.some_inj] at h
        subst h
        dsimp only
        constructor
        · exact le_min (by nlinarith) (by norm_num)
        · exact min_le_right _ 1
      · cases h

theorem detectCartels_suspicion (g : CitationGraph) (p : CitationPattern)
    (h : p ∈ detectCitationCartels g) :
    0 ≤ p.suspicion_score ∧ p.suspicion_score ≤ 1 := by
  unfold detectCitationCartels at h
  rw [List.mem_flatMap] at h
  obtain ⟨a, _, h⟩ := h
  rw [List.mem_flatMap] at h
  obtain ⟨b, _, h⟩ := h
  split at h
  · dsimp only at h
    split at h
    · rw [List.mem_singleton] at h
      subst h
      dsimp only
      constructor
      · exact le_min (by positivity) (by norm_num)
      · exact min_le_right _ 1
    · simp at h
  · simp at h

theorem detectConcentration_suspicion (g : CitationGraph)
    (cits : List ExtractedCitation) (p : CitationPattern)
    (h : detectConcentration g cits = some p) :
    0 ≤ p.suspicion_score ∧ p.suspicion_score ≤ 1 := by
  unfold detectConcentration at h
  split at h
  · cases h
  · dsimp only at h
    split at h
    · cases h
    · split at h
      · rename_i hshare
        rw [Option.some_inj] at h
        subst h
        dsimp only
        constructor
        · exact le_min (by nlinarith) (by norm_num)
        · exact min_le_right _ 1
      · cases h

theorem detectTemporal_suspicion (g : CitationGraph) (y : Int)
    (p : CitationPattern) (h : detectTemporalAnomalies g y = some p) :
    0 ≤ p.suspicion_score ∧ p.suspicion_score ≤ 1 := by
  unfold detectTemporalAnomalies at h
  dsimp only at h
  split at h
  · cases h
  · split at h
    · rw [Option.some_inj] at h
      subst h
      dsimp only
      norm_num
    · cases h

theorem detectPatterns_suspicion (g : CitationGraph)
    (cits : List ExtractedCitation) (y : Int) (p : CitationPattern)
    (h : p ∈ detectPatterns g cits y) :
    0 ≤ p.suspicion_score ∧ p.suspicion_score ≤ 1 := by
  unfold detectPatterns at h
  simp only [List.mem_append] at h
  rcases h with ((h | h) | h) | h
  · rcases Option.mem_toList.mp h with h2
    exact detectClustering_suspicion g p h2
  · exact detectCartels_suspicion g p h
  · rcases Option.mem_toList.mp h with h2
    exact detectConcentration_suspicion g cits p h2
  · rcases Option.mem_toList.mp h with h2
    exact detectTemporal_suspicion g y p h2

/-- Claim C1 amended: on every input where `analyze` returns a result,
the diversity score, the risk score and the suspicion score of every
reported pattern lie in [0,1]; the self-citation rate and the network
density are nonnegative (but not bounded above — see the
counterexample). -/
theorem claim1_amended (text : Str) (references : List Reference)
    (author_names : List Str) (currentYear : Int) (ts : Nat)
    (r : CitationAnalysisResult)
    (h : analyze text references author_names currentYear ts = some r) :
    0 ≤ r.self_citation_rate ∧ 0 ≤ r.citation_network_density ∧
    (0 ≤ r.author_citation_diversity ∧ r.author_citation_diversity ≤ 1) ∧
    (0 ≤ r.risk_score ∧ r.risk_score ≤ 1) ∧
    ∀ p ∈ r.suspicious_patterns,
      0 ≤ p.suspicion_score ∧ p.suspicion_score ≤ 1 := by
  simp only [analyze] at h
  rw [Option.map_eq_some'] at h
  obtain ⟨sc, hsc, hr⟩ := h
  subst hr
  dsimp only
  refine ⟨by positivity, networkDensity_nonneg _, citationDiversity_bounds _ _,
    riskScore_bounds _ _ _ _, ?_⟩
  intro p hp
  exact detectPatterns_suspicion _ _ _ p (List.mem_of_mem_filter hp)

/-- Claim C1 amended, witness: the empty input. -/
theorem claim1_witness :
    analyze [] [] [] 2026 0 =
      some ((analyze [] [] [] 2026 0).getD emptyResult) ∧
    (0 ≤ ((analyze [] [] [] 2026 0).getD emptyResult).self_citation_rate ∧
      0 ≤ ((analyze [] [] [] 2026 0).getD emptyResult).citation_network_density ∧
      (0 ≤ ((analyze [] [] [] 2026 0).getD emptyResult).author_citation_diversity ∧
        ((analyze [] [] [] 2026 0).getD emptyResult).author_citation_diversity ≤ 1) ∧
      (0 ≤ ((analyze [] [] [] 2026 0).getD emptyResult).risk_score ∧
        ((analyze [] [] [] 2026 0).getD emptyResult).risk_score ≤ 1) ∧
      ∀ p ∈ ((analyze [] [] [] 2026 0).getD emptyResult).suspicious_patterns,
        0 ≤ p.suspicion_score ∧ p.suspicion_score ≤ 1) :=
  ⟨rfl, claim1_amended [] [] [] 2026 0 _ rfl⟩

/-! ## Claim C3: amended -/

/-- Claim C3 amended: with an empty reference list, the aggregate
metrics do take their zero values — density 0 (no nodes), diversity 0,
self-citation rate 0 — for every manuscript text and author list on
which `analyze` returns a result. -/
theorem claim3_amended (text : Str) (author_names : List Str)
    (currentYear : Int) (ts : Nat) (r : CitationAnalysisResult)
    (h : analyze text [] author_names currentYear ts = some r) :
    r.citation_network_density = 0 ∧ r.author_citation_diversity = 0 ∧
      r.self_citation_rate = 0 := by
  simp only [analyze] at h
  rw [Option.map_eq_some'] at h
  obtain ⟨sc, hsc, hr⟩ := h
  have hsc0 : sc = 0 := by
    unfold countSelfCitations at hsc
    by_cases hempty : author_names.isEmpty
    · rw [if_pos hempty] at hsc
      exact (Option.some_inj.mp hsc).symm
    · rw [if_neg hempty] at hsc
      cases htoks : author_names.mapM lastTokenLower with
      | none => rw [htoks] at hsc; cases hsc
      | some toks =>
        rw [htoks] at hsc
        dsimp only at hsc
        have hmap : List.mapM (fun r => refMatches toks r.authors)
            ([] : List Reference) = some [] := rfl
        rw [hmap] at hsc
        dsimp only at hsc
        simp at hsc
        omega
  subst hr
  subst hsc0
  have hnodes : (buildGraph (extractCitations text []) []).nodes = [] := by
    rw [buildGraph_nodes]
    simp
  refine ⟨?_, ?_, ?_⟩
  · show networkDensity (buildGraph (extractCitations text []) []) = 0
    unfold networkDensity
    rw [hnodes]
    simp
  · show citationDiversity (extractCitations text []) [] = 0
    rfl
  · show ((0 : ℕ) : ℚ) / _ = 0
    simp

/-- Claim C3 amended, witness: a manuscript with one citation, no
references and one author. -/
theorem claim3_witness :
    analyze ( "x [1].".toList) [] [ "Ann Smith".toList] 2026 0 =
      some ((analyze ( "x [1].".toList) [] [ "Ann Smith".toList] 2026 0).getD
        emptyResult) ∧
    (((analyze ( "x [1].".toList) [] [ "Ann Smith".toList] 2026 0).getD
        emptyResult).citation_network_density = 0 ∧
      ((analyze ( "x [1].".toList) [] [ "Ann Smith".toList] 2026 0).getD
        emptyResult).author_citation_diversity = 0 ∧
      ((analyze ( "x [1].".toList) [] [ "Ann Smith".toList] 2026 0).getD
        emptyResult).self_citation_rate = 0) :=
  ⟨rfl, claim3_amended ( "x [1].".toList) [ "Ann Smith".toList] 2026 0 _ rfl⟩

/-! ## Claim C10: counterexample -/

/-- Claim C10 is false as stated: citing reference 1 twice in one
context yields a graph whose only edge is the self-loop `("1","1")`;
the graph has an edge, yet the cartel detector emits nothing, because
the ring search starting at the loop returns 1. -/
theorem claim10_cx :
    (buildGraph [citCtxA1, citCtxA1] [refSmithA]).edges ≠ [] ∧
      detectCitationCartels (buildGraph [citCtxA1, citCtxA1] [refSmithA]) = [] := by
  constructor
  · decide
  · decide

/-! ## Claim C10: amended -/

theorem neighbors_of_edge_fst (g : CitationGraph) (a b : Str)
    (h : (a, b) ∈ g.edges) : b ∈ getNeighbors g a := by
  unfold getNeighbors
  rw [List.mem_filterMap]
  exact ⟨(a, b), h, by simp⟩

theorem neighbors_of_edge_snd (g : CitationGraph) (a b : Str)
    (h : (a, b) ∈ g.edges) : a ∈ getNeighbors g b := by
  unfold getNeighbors
  rw [List.mem_filterMap]
  refine ⟨(a, b), h, ?_⟩
  by_cases hab : a = b <;> simp [hab]

theorem ringLoop_of_start_mem (recur : Str → Nat) (start : Str) (vlen : Nat)
    (visited : List Str) :
    ∀ (l : List Str) (acc : Nat), start ∈ l →
      ringLoop recur start vlen visited l acc = vlen + 1 := by
  intro l
  induction l with
  | nil => intro acc h; simp at h
  | cons nb rest ih =>
    intro acc h
    by_cases h1 : nb = start
    · simp only [ringLoop, if_pos h1]
    · have hmem : start ∈ rest := by
        rcases List.mem_cons.mp h with h2 | h2
        · exact absurd h2.symm h1
        · exact h2
      by_cases h2 : nb ∈ visited
      · simp only [ringLoop, if_neg h1, if_pos h2]
        exact ih _ hmem
      · simp only [ringLoop, if_neg h1, if_neg h2]
        exact ih _ hmem

/-- Behavior of `_find_ring_size` on a node adjacent to the start: the neighbor loop
returns early at the start node, with the visited set holding the start
and the current node. -/
theorem ringSizeF_adjacent (g : CitationGraph) (start : Str) (fuel : Nat)
    (visited : List Str) (current : Str) (hcv : current ∉ visited)
    (hadj : start ∈ getNeighbors g current) :
    ringSizeF g start (fuel + 1) visited current = visited.length + 2 := by
  rw [ringSizeF, if_neg hcv]
  rw [ringLoop_of_start_mem _ _ _ _ _ _ hadj]
  simp

theorem flatMap_ne_nil {α β : Type} (l : List α) (f : α → List β) (x : α)
    (hx : x ∈ l) (hf : f x ≠ []) : l.flatMap f ≠ [] := by
  rcases List.exists_mem_of_ne_nil _ hf with ⟨y, hy⟩
  exact List.ne_nil_of_mem (List.mem_flatMap.mpr ⟨x, hx, hy⟩)

/-- Claim C10 amended: a graph with an edge between two distinct
endpoints whose source endpoint is a node makes the cartel detector
emit at least one pattern — the ring search over such an edge returns
exactly 3, meeting the threshold. -/
theorem claim10_amended (g : CitationGraph) (a b : Str)
    (hedge : (a, b) ∈ g.edges ∨ (b, a) ∈ g.edges) (hne : a ≠ b)
    (hnode : a ∈ g.nodes) :
    detectCitationCartels g ≠ [] := by
  have hba : b ∈ getNeighbors g a := by
    rcases hedge with h | h
    · exact neighbors_of_edge_fst g a b h
    · exact neighbors_of_edge_snd g b a h
  have hab : a ∈ getNeighbors g b := by
    rcases hedge with h | h
    · exact neighbors_of_edge_snd g a b h
    · exact neighbors_of_edge_fst g b a h
  have hring : findRingSize g a b = 3 := by
    unfold findRingSize cartelFuel
    rw [ringSizeF_adjacent g a _ [a] b (by simp [Ne.symm hne]) hab]
    rfl
  unfold detectCitationCartels
  apply flatMap_ne_nil _ _ a hnode
  apply flatMap_ne_nil _ _ b hba
  rw [if_pos hab]
  simp [hring]

/-- Claim C10 amended, witness: the two-reference co-citation graph. -/
theorem claim10_witness :
    (( "1".toList, "2".toList) ∈ graphPairW.edges ∨
      ( "2".toList, "1".toList) ∈ graphPairW.edges) ∧
    "1".toList ≠ "2".toList ∧ "1".toList ∈ graphPairW.nodes ∧
    detectCitationCartels graphPairW ≠ [] :=
  ⟨Or.inl (by decide), by decide, by decide,
    claim10_amended graphPairW ( "1".toList) ( "2".toList)
      (Or.inl (by decide)) (by decide) (by decide)⟩

/-! ## Claim C8 -/

theorem pySplit_ne_nil (sep : Char) : ∀ s : Str, pySplit sep s ≠ [] := by
  intro s
  induction s with
  | nil => simp [pySplit]
  | cons c t ih =>
    rw [pySplit]
    split
    · rename_i h
      exact absurd h ih
    · split <;> simp

theorem pySplit_no_sep (sep : Char) :
    ∀ s : Str, sep ∉ s → pySplit sep s = [s] := by
  intro s
  induction s with
  | nil => intro _; rfl
  | cons c t ih =>
    intro h
    have hc : ¬ c = sep := fun he => h (by simp [he])
    have ht : sep ∉ t := fun he => h (by simp [he])
    rw [pySplit, ih ht]
    simp [hc]

theorem pySplit_cons_ne (sep c : Char) (u : Str) (hc : ¬ c = sep) :
    ∀ h ts, pySplit sep u = h :: ts →
      pySplit sep (c :: u) = (c :: h) :: ts := by
  intro h ts hu
  rw [pySplit, hu]
  simp [hc]

theorem pySplit_append_sep (sep : Char) :
    ∀ (a b : Str), sep ∉ a →
      pySplit sep (a ++ sep :: b) = a :: pySplit sep b := by
  intro a
  induction a with
  | nil =>
    intro b _
    simp only [List.nil_append]
    rw [pySplit]
    cases hb : pySplit sep b with
    | nil => exact absurd hb (pySplit_ne_nil sep b)
    | cons h ts => simp
  | cons c a' ih =>
    intro b ha
    have hc : ¬ c = sep := fun he => ha (by simp [he])
    have ha' : sep ∉ a' := fun he => ha (by simp [he])
    have := ih b ha'
    simp only [List.cons_append]
    cases hrec : pySplit sep (a' ++ sep :: b) with
    | nil => exact absurd hrec (pySplit_ne_nil sep _)
    | cons h ts =>
      rw [pySplit_cons_ne sep c _ hc h ts hrec]
      rw [hrec] at this
      injection this with h1 h2
      rw [h1, h2]

theorem isDigit_facts (c : Char) (h : c.isDigit = true) :
    ¬ c = '-' ∧ ¬ c = ',' ∧ isSpaceChar c = false := by
  refine ⟨?_, ?_, ?_⟩
  · intro he; rw [he] at h; exact absurd h (by decide)
  · intro he; rw [he] at h; exact absurd h (by decide)
  · unfold isSpaceChar
    rw [decide_eq_false_iff_not]
    push_neg
    refine ⟨?_, ?_, ?_, ?_, ?_, ?_⟩ <;>
      (intro he; rw [he] at h; exact absurd h (by decide))

theorem dropWhile_eq_self_of (p : Char → Bool) (s : Str)
    (h : ∀ c ∈ s, p c = false) : s.dropWhile p = s := by
  cases s with
  | nil => rfl
  | cons c t => simp [List.dropWhile_cons, h c (by simp)]

theorem pyStrip_digits (s : Str) (h : s.all Char.isDigit = true) :
    pyStrip s = s := by
  unfold pyStrip
  rw [List.all_eq_true] at h
  rw [dropWhile_eq_self_of isSpaceChar s
    (fun c hc => (isDigit_facts c (h c hc)).2.2)]
  rw [dropWhile_eq_self_of isSpaceChar s.reverse
    (fun c hc => (isDigit_facts c (h c (List.mem_reverse.mp hc))).2.2)]
  exact List.reverse_reverse s



theorem mem_joinCommaSpace :
    ∀ (items : List Str) (c : Char), c ∈ joinCommaSpace items →
      (∃ x ∈ items, c ∈ x) ∨ c = ',' ∨ c = ' ' := by
  intro items
  induction items with
  | nil => intro c hc; cases hc
  | cons x rest ih =>
    intro c hc
    cases rest with
    | nil =>
      left
      exact ⟨x, by simp, hc⟩
    | cons y rest' =>
      rw [joinCommaSpace] at hc
      rcases List.mem_append.mp hc with h | h
      · left
        exact ⟨x, by simp, h⟩
      · rcases List.mem_cons.mp h with rfl | h2
        · right; left; rfl
        · rcases List.mem_cons.mp h2 with rfl | h3
          · right; right; rfl
          · rcases ih c h3 with ⟨z, hz, hcz⟩ | h4
            · left
              exact ⟨z, by simp [hz], hcz⟩
            · right; exact h4

theorem pySplit_joinCommaSpace :
    ∀ (items : List Str), items ≠ [] →
      (∀ x ∈ items, ¬ ',' ∈ x) →
      pySplit ',' (joinCommaSpace items) =
        items.head! :: (items.tail.map (fun x => ' ' :: x)) := by
  intro items
  induction items with
  | nil => intro h; exact absurd rfl h
  | cons x rest ih =>
    intro _ hx
    cases rest with
    | nil =>
      rw [joinCommaSpace]
      rw [pySplit_no_sep ',' x (hx x (by simp))]
      rfl
    | cons y rest' =>
      rw [joinCommaSpace]
      rw [pySplit_append_sep ',' x _ (hx x (by simp))]
      have hrec := ih (by simp) (fun z hz => hx z (by simp [hz]))
      cases hsp : pySplit ',' (joinCommaSpace (y :: rest')) with
      | nil => exact absurd hsp (pySplit_ne_nil ',' _)
      | cons h ts =>
        rw [pySplit_cons_ne ',' ' ' _ (by decide) h ts hsp]
        rw [hsp] at hrec
        injection hrec with h1 h2
        rw [h1, h2]
        rfl



theorem pyStrip_space_digits (z : Str) (h : z.all Char.isDigit = true) :
    pyStrip (' ' :: z) = z := by
  unfold pyStrip
  rw [List.all_eq_true] at h
  rw [List.dropWhile_cons]
  have hsp : isSpaceChar ' ' = true := by decide
  rw [if_pos hsp]
  rw [dropWhile_eq_self_of isSpaceChar z
    (fun c hc => (isDigit_facts c (h c hc)).2.2)]
  rw [dropWhile_eq_self_of isSpaceChar z.reverse
    (fun c hc => (isDigit_facts c (h c (List.mem_reverse.mp hc))).2.2)]
  exact List.reverse_reverse z

theorem filter_dash_of_digits (a : Str) (h : ∀ c ∈ a, c.isDigit = true) :
    a.filter (fun c => ¬ c = '-') = a :=
  List.filter_eq_self.mpr (fun c hc => by
    simp [(isDigit_facts c (h c hc)).1])

/-- Expansion of a captured marker group by the id parser: a range
group `a-b` standing for integers n ≤ m expands to one id string per
integer of the inclusive sequence n..m, and a comma-separated list
group expands to exactly its listed ids. -/
theorem parseIds_groups :
    (∀ (a b : Str) (n m : Nat), a ≠ [] → a.all Char.isDigit = true →
      b ≠ [] → b.all Char.isDigit = true →
      digitsVal a = n → digitsVal b = m → n ≤ m →
      parseReferenceIds (a ++ '-' :: b) =
        (List.range' n (m - n + 1)).map natToStr) ∧
    (∀ items : List Str, items ≠ [] →
      (∀ x ∈ items, x ≠ [] ∧ x.all Char.isDigit = true) →
      parseReferenceIds (joinCommaSpace items) = items) := by
  constructor
  · intro a b n m hna hda hnb hdb hn hm hnm
    unfold parseReferenceIds
    have hdaAll := List.all_eq_true.mp hda
    have hdbAll := List.all_eq_true.mp hdb
    have hfilter : (a ++ '-' :: b).filter (fun c => ¬ c = '-') = a ++ b := by
      rw [List.filter_append, List.filter_cons, if_neg (by decide)]
      rw [filter_dash_of_digits a hdaAll, filter_dash_of_digits b hdbAll]
    have hcond : ('-' ∈ a ++ '-' :: b) ∧
        (((a ++ '-' :: b).filter (fun c => ¬ c = '-')) ≠ [] ∧
          ((a ++ '-' :: b).filter (fun c => ¬ c = '-')).all Char.isDigit) := by
      refine ⟨by simp, ?_, ?_⟩
      · rw [hfilter]
        simp [hna]
      · rw [hfilter, List.all_append]
        rw [hda, hdb]
        rfl
    rw [if_pos hcond]
    have hdash_a : '-' ∉ a := fun hmem =>
      (isDigit_facts '-' (hdaAll '-' hmem)).1 rfl
    have hsplit : pySplit '-' (a ++ '-' :: b) = [a, b] := by
      rw [pySplit_append_sep '-' a b hdash_a]
      rw [pySplit_no_sep '-' b (fun hmem =>
        (isDigit_facts '-' (hdbAll '-' hmem)).1 rfl)]
    rw [hsplit]
    have hia : pyInt a = some n := by
      unfold pyInt
      rw [if_pos ⟨hna, hda⟩, hn]
    have hib : pyInt b = some m := by
      unfold pyInt
      rw [if_pos ⟨hnb, hdb⟩, hm]
    dsimp only
    rw [hia, hib]
    dsimp only
    have harith : m + 1 - n = m - n + 1 := by omega
    rw [harith]
  · intro items hne hall
    cases items with
    | nil => exact absurd rfl hne
    | cons x rest =>
      cases rest with
      | nil =>
        have hx := hall x (by simp)
        rw [joinCommaSpace]
        unfold parseReferenceIds
        rw [if_neg ?_, if_neg ?_]
        · rw [pyStrip_digits x hx.2]
        · intro hmem
          exact (isDigit_facts ','
            (List.all_eq_true.mp hx.2 ',' hmem)).2.1 rfl
        · intro hcond
          exact (isDigit_facts '-'
            (List.all_eq_true.mp hx.2 '-' hcond.1)).1 rfl
      | cons y rest' =>
        have hnocomma : ∀ z ∈ x :: y :: rest', ¬ ',' ∈ z := by
          intro z hz hmem
          exact (isDigit_facts ','
            (List.all_eq_true.mp (hall z hz).2 ',' hmem)).2.1 rfl
        have hnodash : '-' ∉ joinCommaSpace (x :: y :: rest') := by
          intro hmem
          rcases mem_joinCommaSpace _ '-' hmem with ⟨z, hz, hcz⟩ | h | h
          · exact (isDigit_facts '-'
              (List.all_eq_true.mp (hall z hz).2 '-' hcz)).1 rfl
          · cases h
          · cases h
        unfold parseReferenceIds
        rw [if_neg (fun hcond => hnodash hcond.1)]
        rw [if_pos ?_]
        · rw [pySplit_joinCommaSpace (x :: y :: rest') (by simp) hnocomma]
          simp only [List.head!, List.tail]
          rw [List.map_cons]
          rw [pyStrip_digits x (hall x (by simp)).2]
          rw [List.map_map]
          have hmapstrip :
              (y :: rest').map (pyStrip ∘ fun z => ' ' :: z) = y :: rest' := by
            rw [List.map_congr_left ?_, List.map_id]
            intro z hz
            exact pyStrip_space_digits z (hall z (by simp [hz])).2
          rw [hmapstrip]
          rw [List.filter_eq_self.mpr ?_]
          intro z hz
          have := hall z hz
          simp [List.isEmpty_iff, this.1]
        · rw [joinCommaSpace]
          simp


/-! ## New development: C8 extraction-level lemmas -/

theorem joinCommaSpace_eq_sepChain :
    ∀ (x : Str) (rest : List Str),
      joinCommaSpace (x :: rest) = x ++ sepChain rest := by
  intro x rest
  induction rest generalizing x with
  | nil => simp [joinCommaSpace, sepChain]
  | cons y r ih =>
    rw [joinCommaSpace, sepChain, ih y]

theorem sepChain_length_ge :
    ∀ rest : List Str, rest.length ≤ (sepChain rest).length := by
  intro rest
  induction rest with
  | nil => simp [sepChain]
  | cons x r ih =>
    rw [sepChain]
    simp only [List.length_cons, List.length_append]
    omega

theorem takeWhile_append_of (p : Char → Bool) (a : Str) (d : Char) (r : Str)
    (ha : ∀ c ∈ a, p c = true) (hd : p d = false) :
    (a ++ d :: r).takeWhile p = a := by
  induction a with
  | nil => simp [List.takeWhile_cons, hd]
  | cons c t ih =>
    rw [List.cons_append, List.takeWhile_cons, ha c (by simp), if_pos rfl]
    rw [ih (fun x hx => ha x (by simp [hx]))]

theorem dropWhile_append_of (p : Char → Bool) (a : Str) (d : Char) (r : Str)
    (ha : ∀ c ∈ a, p c = true) (hd : p d = false) :
    (a ++ d :: r).dropWhile p = d :: r := by
  induction a with
  | nil => simp [List.dropWhile_cons, hd]
  | cons c t ih =>
    rw [List.cons_append, List.dropWhile_cons, ha c (by simp), if_pos rfl]
    exact ih (fun x hx => ha x (by simp [hx]))

theorem takeRun_append_run (p : Char → Bool) (a : Str) (d : Char) (r : Str)
    (hne : a ≠ []) (ha : ∀ c ∈ a, p c = true) (hd : p d = false) :
    takeRun p (a ++ d :: r) = some (a, d :: r) := by
  unfold takeRun
  dsimp only
  rw [takeWhile_append_of p a d r ha hd, dropWhile_append_of p a d r ha hd]
  rw [if_neg (by simp [List.isEmpty_iff, hne])]

theorem takeRun_eq_some (p : Char → Bool) (s a r : Str)
    (h : takeRun p s = some (a, r)) :
    s = a ++ r ∧ a ≠ [] ∧ ∀ c ∈ a, p c = true := by
  unfold takeRun at h
  dsimp only at h
  split at h
  · cases h
  · rename_i hne
    rw [Option.some_inj] at h
    injection h with h1 h2
    subst h1
    subst h2
    refine ⟨(List.takeWhile_append_dropWhile p s).symm, ?_, ?_⟩
    · simpa [List.isEmpty_iff] using hne
    · intro c hc
      exact List.mem_takeWhile_imp hc

theorem litChar_eq_some (c : Char) (s t : Str) (h : litChar c s = some t) :
    s = c :: t := by
  cases s with
  | nil => cases h
  | cons x r =>
    simp only [litChar] at h
    split at h
    · rename_i hx
      rw [Option.some_inj] at h
      rw [hx, h]
    · cases h

theorem matcherNumRange_marker (a b v : Str)
    (hna : a ≠ []) (hda : a.all Char.isDigit = true)
    (hnb : b ≠ []) (hdb : b.all Char.isDigit = true) :
    matcherNumRange ('[' :: (a ++ '-' :: (b ++ ']' :: v))) =
      some (a ++ '-' :: b, v) := by
  have hdaAll := List.all_eq_true.mp hda
  have hdbAll := List.all_eq_true.mp hdb
  simp only [matcherNumRange, Bind.bind]
  rw [takeRun_append_run Char.isDigit a '-' (b ++ ']' :: v) hna hdaAll (by decide)]
  rw [Option.some_bind]
  dsimp only
  rw [show litChar '-' ('-' :: (b ++ ']' :: v)) = some (b ++ ']' :: v) from by
    simp [litChar]]
  rw [Option.some_bind]
  rw [takeRun_append_run Char.isDigit b ']' v hnb hdbAll (by decide)]
  rw [Option.some_bind]
  dsimp only
  rw [show litChar ']' (']' :: v) = some v from by simp [litChar]]
  rw [Option.some_bind]
  have ht : a ++ '-' :: (b ++ ']' :: v) = (a ++ '-' :: b) ++ ']' :: v := by
    simp
  rw [ht]
  have hlen : ((a ++ '-' :: b) ++ ']' :: v).length - (']' :: v).length =
      (a ++ '-' :: b).length := by
    simp only [List.length_append, List.length_cons]
    omega
  rw [hlen, List.take_left]

theorem digit_ne_lbrack (c : Char) (h : c.isDigit = true) : ¬ c = '[' := by
  intro he
  subst he
  exact absurd h (by decide)

theorem matcherNumRange_shape (s g rest : Str)
    (h : matcherNumRange s = some (g, rest)) :
    s = '[' :: (g ++ ']' :: rest) ∧ '[' ∉ g := by
  unfold matcherNumRange at h
  split at h
  · rename_i t
    simp only [Bind.bind] at h
    rw [Option.bind_eq_some] at h
    obtain ⟨x, hx, h⟩ := h
    rcases x with ⟨d1, r1⟩
    dsimp only at h
    rw [Option.bind_eq_some] at h
    obtain ⟨r2, h2, h⟩ := h
    rw [Option.bind_eq_some] at h
    obtain ⟨y, hy, h⟩ := h
    rcases y with ⟨d2, r3⟩
    dsimp only at h
    rw [Option.bind_eq_some] at h
    obtain ⟨r4, h4, hfin⟩ := h
    rw [Option.some_inj] at hfin
    injection hfin with hg hr
    subst hr
    subst hg
    obtain ⟨ht, hd1ne, hd1⟩ := takeRun_eq_some Char.isDigit t d1 r1 hx
    have hr1 : r1 = '-' :: r2 := litChar_eq_some '-' r1 r2 h2
    obtain ⟨hr2, hd2ne, hd2⟩ := takeRun_eq_some Char.isDigit r2 d2 r3 hy
    have hr3 : r3 = ']' :: r4 := litChar_eq_some ']' r3 r4 h4
    have htt : t = (d1 ++ '-' :: d2) ++ ']' :: r4 := by
      rw [ht, hr1, hr2, hr3]
      simp
    have hlen2 : t.length - r3.length = (d1 ++ '-' :: d2).length := by
      rw [htt, hr3]
      simp only [List.length_append, List.length_cons]
      omega
    have hgval : t.take (t.length - r3.length) = d1 ++ '-' :: d2 := by
      rw [hlen2, htt, List.take_left]
    constructor
    · rw [hgval, htt]
    · rw [hgval]
      intro hmem
      rcases List.mem_append.mp hmem with hm1 | hm2
      · exact digit_ne_lbrack '[' (hd1 '[' hm1) rfl
      · rcases List.mem_cons.mp hm2 with he | hm3
        · cases he
        · exact digit_ne_lbrack '[' (hd2 '[' hm3) rfl
  · cases h

theorem listTailF_decomp : ∀ (fuel : Nat) (s : Str), ∃ mid : Str,
    s = mid ++ listTailF fuel s ∧
    ∀ c ∈ mid, c = ',' ∨ isSpaceChar c = true ∨ c.isDigit = true := by
  intro fuel
  induction fuel with
  | zero =>
    intro s
    exact ⟨[], by rw [listTailF]; rfl, by simp⟩
  | succ fuel ih =>
    intro s
    rw [listTailF]
    cases hlit : litChar ',' s with
    | none => exact ⟨[], by simp, by simp⟩
    | some t1 =>
      dsimp only
      cases htr : takeRun Char.isDigit (t1.dropWhile isSpaceChar) with
      | none => exact ⟨[], by simp, by simp⟩
      | some dt =>
        rcases dt with ⟨d, t3⟩
        dsimp only
        obtain ⟨mid, hmid, hchars⟩ := ih t3
        have hs : s = ',' :: t1 := litChar_eq_some ',' s t1 hlit
        obtain ⟨hdw, hdne, hdall⟩ :=
          takeRun_eq_some Char.isDigit (t1.dropWhile isSpaceChar) d t3 htr
        have ht1 : t1 = t1.takeWhile isSpaceChar ++ (d ++ t3) := by
          conv_lhs => rw [← List.takeWhile_append_dropWhile isSpaceChar t1]
          rw [hdw]
        refine ⟨',' :: (t1.takeWhile isSpaceChar ++ (d ++ mid)), ?_, ?_⟩
        · rw [hs, List.cons_append]
          have ht1w : t1 = (t1.takeWhile isSpaceChar ++ (d ++ mid)) ++
              listTailF fuel t3 := by
            conv_lhs => rw [ht1, hmid]
            simp [List.append_assoc]
          rw [← ht1w]
        · intro c hc
          rcases List.mem_cons.mp hc with rfl | hc2
          · exact Or.inl rfl
          rcases List.mem_append.mp hc2 with hsp | hdm
          · exact Or.inr (Or.inl (List.mem_takeWhile_imp hsp))
          rcases List.mem_append.mp hdm with hd | hm
          · exact Or.inr (Or.inr (hdall c hd))
          · exact hchars c hm

theorem sepChain_bracket_head (r : List Str) (v : Str) :
    ∃ (d : Char) (w : Str),
      sepChain r ++ ']' :: v = d :: w ∧ d.isDigit = false := by
  cases r with
  | nil => exact ⟨']', v, by simp [sepChain], by decide⟩
  | cons y r2 =>
    exact ⟨',', (' ' :: (y ++ sepChain r2)) ++ ']' :: v,
      by simp [sepChain], by decide⟩

theorem listTailF_sepChain :
    ∀ (rest : List Str), (∀ x ∈ rest, x ≠ [] ∧ x.all Char.isDigit = true) →
    ∀ (fuel : Nat), rest.length ≤ fuel → ∀ v : Str,
      listTailF fuel (sepChain rest ++ ']' :: v) = ']' :: v := by
  intro rest
  induction rest with
  | nil =>
    intro _ fuel _ v
    rw [sepChain, List.nil_append]
    cases fuel with
    | zero => rw [listTailF]
    | succ f =>
      rw [listTailF]
      rw [show litChar ',' (']' :: v) = none from by simp [litChar]]
  | cons x r ih =>
    intro hall fuel hfuel v
    cases fuel with
    | zero => simp at hfuel
    | succ f =>
      obtain ⟨hxne, hxd⟩ := hall x (by simp)
      have hxdAll := List.all_eq_true.mp hxd
      rw [sepChain, listTailF]
      have hform : (',' :: ' ' :: (x ++ sepChain r)) ++ ']' :: v =
          ',' :: ' ' :: (x ++ (sepChain r ++ ']' :: v)) := by
        simp [List.append_assoc]
      rw [hform]
      rw [show litChar ',' (',' :: ' ' :: (x ++ (sepChain r ++ ']' :: v))) =
          some (' ' :: (x ++ (sepChain r ++ ']' :: v))) from by simp [litChar]]
      dsimp only
      have hdw : (' ' :: (x ++ (sepChain r ++ ']' :: v))).dropWhile isSpaceChar =
          x ++ (sepChain r ++ ']' :: v) := by
        rw [List.dropWhile_cons, if_pos (by decide)]
        cases x with
        | nil => exact absurd rfl hxne
        | cons c x2 =>
          rw [List.cons_append, List.dropWhile_cons,
            if_neg (by simp [(isDigit_facts c (hxdAll c (by simp))).2.2])]
      rw [hdw]
      obtain ⟨dch, w, hw, hwnd⟩ := sepChain_bracket_head r v
      rw [hw]
      rw [takeRun_append_run Char.isDigit x dch w hxne hxdAll hwnd]
      dsimp only
      rw [← hw]
      exact ih (fun z hz => hall z (by simp [hz])) f (by simp at hfuel; omega) v

theorem matcherNumList_marker (items : List Str) (v : Str)
    (hne : items ≠ []) (hall : ∀ x ∈ items, x ≠ [] ∧ x.all Char.isDigit = true) :
    matcherNumList ('[' :: (joinCommaSpace items ++ ']' :: v)) =
      some (joinCommaSpace items, v) := by
  cases items with
  | nil => exact absurd rfl hne
  | cons x rest =>
    obtain ⟨hxne, hxd⟩ := hall x (by simp)
    have hxdAll := List.all_eq_true.mp hxd
    rw [joinCommaSpace_eq_sepChain]
    simp only [matcherNumList, Bind.bind]
    have hform : (x ++ sepChain rest) ++ ']' :: v =
        x ++ (sepChain rest ++ ']' :: v) := by
      simp [List.append_assoc]
    rw [hform]
    obtain ⟨dch, w, hw, hwnd⟩ := sepChain_bracket_head rest v
    rw [hw, takeRun_append_run Char.isDigit x dch w hxne hxdAll hwnd,
      Option.some_bind]
    dsimp only
    rw [← hw]
    have hlt : listTail (sepChain rest ++ ']' :: v) = ']' :: v := by
      unfold listTail
      apply listTailF_sepChain rest (fun z hz => hall z (by simp [hz]))
      have := sepChain_length_ge rest
      simp only [List.length_append, List.length_cons]
      omega
    rw [hlt]
    rw [show litChar ']' (']' :: v) = some v from by simp [litChar]]
    rw [Option.some_bind]
    have ht2 : x ++ (sepChain rest ++ ']' :: v) =
        (x ++ sepChain rest) ++ ']' :: v := by
      simp [List.append_assoc]
    rw [ht2]
    have hlen : ((x ++ sepChain rest) ++ ']' :: v).length - (']' :: v).length =
        (x ++ sepChain rest).length := by
      simp only [List.length_append, List.length_cons]
      omega
    rw [hlen, List.take_left]

theorem matcherNumList_shape (s g rest : Str)
    (h : matcherNumList s = some (g, rest)) :
    s = '[' :: (g ++ ']' :: rest) ∧ '[' ∉ g := by
  unfold matcherNumList at h
  split at h
  · rename_i t
    simp only [Bind.bind] at h
    rw [Option.bind_eq_some] at h
    obtain ⟨x, hx, h⟩ := h
    rcases x with ⟨d, r1⟩
    dsimp only at h
    rw [Option.bind_eq_some] at h
    obtain ⟨r3, h3, hfin⟩ := h
    rw [Option.some_inj] at hfin
    injection hfin with hg hr
    subst hr
    subst hg
    obtain ⟨ht, hdne, hdall⟩ := takeRun_eq_some Char.isDigit t d r1 hx
    obtain ⟨mid, hmid, hchars⟩ := listTailF_decomp (r1.length + 1) r1
    have hr2 : listTail r1 = ']' :: r3 :=
      litChar_eq_some ']' (listTail r1) r3 h3
    have hr2f : listTailF (r1.length + 1) r1 = ']' :: r3 := hr2
    have htt : t = (d ++ mid) ++ ']' :: r3 := by
      rw [ht]
      conv_lhs => rw [hmid, hr2f]
      simp [List.append_assoc]
    have hlenq : t.length - (listTail r1).length = (d ++ mid).length := by
      rw [htt, hr2]
      simp only [List.length_append, List.length_cons]
      omega
    have hgval : t.take (t.length - (listTail r1).length) = d ++ mid := by
      rw [hlenq, htt, List.take_left]
    constructor
    · rw [hgval, htt]
    · rw [hgval]
      intro hmem
      rcases List.mem_append.mp hmem with h1 | h2
      · exact digit_ne_lbrack '[' (hdall '[' h1) rfl
      · rcases hchars '[' h2 with he | he | he
        · cases he
        · exact absurd he (by decide)
        · exact digit_ne_lbrack '[' he rfl
  · cases h

theorem finditerF_marker_mem (m : Matcher) (w : Str)
    (hshape : ∀ s g rest, m s = some (g, rest) →
      s = '[' :: (g ++ ']' :: rest) ∧ '[' ∉ g)
    (hsucc : ∀ v : Str, m ('[' :: (w ++ ']' :: v)) = some (w, v)) :
    ∀ (fuel i : Nat) (u v : Str),
      (u ++ '[' :: (w ++ ']' :: v)).length < fuel →
      (i + u.length, w) ∈ finditerF m fuel i (u ++ '[' :: (w ++ ']' :: v)) := by
  intro fuel
  induction fuel with
  | zero =>
    intro i u v hlen
    exact absurd hlen (Nat.not_lt_zero _)
  | succ fuel ih =>
    intro i u v hlen
    rw [finditerF]
    cases hms : m (u ++ '[' :: (w ++ ']' :: v)) with
    | none =>
      simp only [finditerBody]
      cases u with
      | nil =>
        rw [List.nil_append] at hms
        rw [hsucc v] at hms
        simp at hms
      | cons c u2 =>
        rw [List.cons_append]
        dsimp only
        have hidx : i + (c :: u2).length = (i + 1) + u2.length := by
          simp only [List.length_cons]
          omega
        rw [hidx]
        have hlen2 : (u2 ++ '[' :: (w ++ ']' :: v)).length < fuel := by
          rw [List.cons_append] at hlen
          simp only [List.length_cons] at hlen
          omega
        exact ih (i + 1) u2 v hlen2
    | some gr =>
      rcases gr with ⟨g, rest⟩
      simp only [finditerBody]
      obtain ⟨hs_eq, hnb⟩ := hshape _ g rest hms
      cases u with
      | nil =>
        rw [List.nil_append] at hms
        rw [hsucc v] at hms
        rw [Option.some_inj] at hms
        injection hms with hg hr
        subst hg
        subst hr
        exact List.mem_cons_self _ _
      | cons c u2 =>
        rw [List.cons_append] at hs_eq
        injection hs_eq with hc hEq
        have hEq2 : u2 ++ '[' :: (w ++ ']' :: v) = (g ++ [']']) ++ rest := by
          rw [hEq, List.append_cons]
        rcases Nat.lt_or_ge u2.length (g.length + 1) with hlt | hge
        · exfalso
          have htk := congrArg (List.take (u2.length + 1)) hEq2
          rw [List.take_append_eq_append_take,
            List.take_append_eq_append_take] at htk
          rw [List.take_of_length_le (by omega)] at htk
          have e1 : u2.length + 1 - u2.length = 1 := by omega
          have e2 : u2.length + 1 - (g ++ [']']).length = 0 := by
            simp only [List.length_append, List.length_singleton]
            omega
          rw [e1, e2, List.take_zero, List.append_nil] at htk
          rw [show ('[' :: (w ++ ']' :: v)).take 1 = ['['] from rfl] at htk
          have hmem : '[' ∈ (g ++ [']']).take (u2.length + 1) := by
            rw [← htk]
            exact List.mem_append_right u2 (by simp)
          have hmem2 : '[' ∈ g ++ [']'] := List.take_subset _ _ hmem
          rcases List.mem_append.mp hmem2 with h1 | h2
          · exact hnb h1
          · simp at h2
        · have hdk := congrArg (List.drop (g.length + 1)) hEq2
          rw [List.drop_append_eq_append_drop,
            List.drop_append_eq_append_drop] at hdk
          have e3 : g.length + 1 - u2.length = 0 := by omega
          have e4 : g.length + 1 - (g ++ [']']).length = 0 := by
            simp only [List.length_append, List.length_singleton]
            omega
          have e5 : (g ++ [']']).drop (g.length + 1) = [] := by
            apply List.drop_eq_nil_of_le
            simp only [List.length_append, List.length_singleton]
            omega
          rw [e3, e4, List.drop_zero, List.drop_zero, e5,
            List.nil_append] at hdk
          apply List.mem_cons_of_mem
          rw [← hdk]
          have hfl : (u2.drop (g.length + 1) ++ '[' :: (w ++ ']' :: v)).length
              < fuel := by
            simp only [List.cons_append, List.length_append, List.length_cons,
              List.length_drop] at hlen ⊢
            omega
          have hidx : i + (c :: u2).length =
              (i + (((c :: u2) ++ '[' :: (w ++ ']' :: v)).length -
                (u2.drop (g.length + 1) ++ '[' :: (w ++ ']' :: v)).length)) +
              (u2.drop (g.length + 1)).length := by
            simp only [List.cons_append, List.length_append, List.length_cons,
              List.length_drop]
            omega
          rw [hidx]
          exact ih _ _ _ hfl

theorem finditer_marker_mem (m : Matcher) (w : Str)
    (hshape : ∀ s g rest, m s = some (g, rest) →
      s = '[' :: (g ++ ']' :: rest) ∧ '[' ∉ g)
    (hsucc : ∀ v : Str, m ('[' :: (w ++ ']' :: v)) = some (w, v))
    (u v : Str) :
    (u.length, w) ∈ finditer m (u ++ '[' :: (w ++ ']' :: v)) := by
  unfold finditer
  have := finditerF_marker_mem m w hshape hsucc
    ((u ++ '[' :: (w ++ ']' :: v)).length + 1) 0 u v (Nat.lt_succ_self _)
  simpa using this

theorem containsBlock_flatMap {α β : Type} (l : List α) (f : α → List β)
    (a : α) (h : a ∈ l) : containsBlock (l.flatMap f) (f a) := by
  induction l with
  | nil => cases h
  | cons hd tl ih =>
    rw [List.flatMap_cons]
    rcases List.mem_cons.mp h with rfl | h2
    · exact ⟨[], tl.flatMap f, by simp⟩
    · obtain ⟨pre, post, hpq⟩ := ih h2
      exact ⟨f hd ++ pre, post, by rw [hpq]; simp [List.append_assoc]⟩

theorem containsBlock_trans {α : Type} {l m b : List α}
    (h1 : containsBlock l m) (h2 : containsBlock m b) : containsBlock l b := by
  obtain ⟨p1, q1, e1⟩ := h1
  obtain ⟨p2, q2, e2⟩ := h2
  exact ⟨p1 ++ p2, q2 ++ q1, by rw [e1, e2]; simp [List.append_assoc]⟩

theorem extract_contains_match_block (text : Str) (refs : List Reference)
    (m : Matcher) (hm : m ∈ matcherList) (i : Nat) (s : Str)
    (hs : (i, s) ∈ (splitSentences text).enum) (p : Nat) (g : Str)
    (hf : (p, g) ∈ finditer m s) :
    containsBlock (extractCitations text refs)
      ((parseReferenceIds g).map fun rid =>
        { reference_id := rid
          position := p
          context := extractContext (splitSentences text) i
          sentence := s
          citation_type := classifyCitation s }) := by
  have h1 : containsBlock (extractCitations text refs)
      ((splitSentences text).enum.flatMap fun is =>
        citationsOfMatch (splitSentences text) is.1 is.2 m) := by
    unfold extractCitations
    exact containsBlock_flatMap matcherList _ m hm
  have h2 : containsBlock
      ((splitSentences text).enum.flatMap fun is =>
        citationsOfMatch (splitSentences text) is.1 is.2 m)
      (citationsOfMatch (splitSentences text) i s m) :=
    containsBlock_flatMap (splitSentences text).enum
      (fun is => citationsOfMatch (splitSentences text) is.1 is.2 m) (i, s) hs
  have h3 : containsBlock (citationsOfMatch (splitSentences text) i s m)
      ((parseReferenceIds g).map fun rid =>
        { reference_id := rid
          position := p
          context := extractContext (splitSentences text) i
          sentence := s
          citation_type := classifyCitation s }) := by
    unfold citationsOfMatch
    have hb := containsBlock_flatMap (finditer m s)
      (fun pg => (parseReferenceIds pg.2).map fun rid =>
        ({ reference_id := rid
           position := pg.1
           context := extractContext (splitSentences text) i
           sentence := s
           citation_type := classifyCitation s } : ExtractedCitation)) (p, g) hf
    exact hb
  exact containsBlock_trans (containsBlock_trans h1 h2) h3

/-- Claim C8 (confirmed): for every range marker `[a-b]` with value
n ≤ m appearing inside a sentence of the split manuscript text,
extraction produces one uninterrupted block holding exactly one
ExtractedCitation per integer id of the inclusive sequence n..m (the
id strings are pairwise distinct), each carrying the sentence, the
sentence-relative marker position and the sentence window context; and
for every comma-separated list marker, one ExtractedCitation per
listed id, in list order. -/
theorem claim8_confirmed :
    (∀ (text : Str) (refs : List Reference) (i : Nat) (u a b v : Str)
        (n m : Nat),
      (i, u ++ '[' :: (a ++ '-' :: b ++ ']' :: v)) ∈
        (splitSentences text).enum →
      a ≠ [] → a.all Char.isDigit = true → b ≠ [] → b.all Char.isDigit = true →
      digitsVal a = n → digitsVal b = m → n ≤ m →
      parseReferenceIds (a ++ '-' :: b) =
        (List.range' n (m - n + 1)).map natToStr ∧
      ((List.range' n (m - n + 1)).map natToStr).Nodup ∧
      containsBlock (extractCitations text refs)
        ((List.range' n (m - n + 1)).map fun k =>
          { reference_id := natToStr k
            position := u.length
            context := extractContext (splitSentences text) i
            sentence := u ++ '[' :: (a ++ '-' :: b ++ ']' :: v)
            citation_type :=
              classifyCitation (u ++ '[' :: (a ++ '-' :: b ++ ']' :: v)) })) ∧
    (∀ (text : Str) (refs : List Reference) (i : Nat) (u v : Str)
        (items : List Str),
      (i, u ++ '[' :: (joinCommaSpace items ++ ']' :: v)) ∈
        (splitSentences text).enum →
      items ≠ [] → (∀ x ∈ items, x ≠ [] ∧ x.all Char.isDigit = true) →
      parseReferenceIds (joinCommaSpace items) = items ∧
      containsBlock (extractCitations text refs)
        (items.map fun rid =>
          { reference_id := rid
            position := u.length
            context := extractContext (splitSentences text) i
            sentence := u ++ '[' :: (joinCommaSpace items ++ ']' :: v)
            citation_type :=
              classifyCitation
                (u ++ '[' :: (joinCommaSpace items ++ ']' :: v)) })) := by
  constructor
  · intro text refs i u a b v n m hmem hna hda hnb hdb hvn hvm hnm
    have hparse := parseIds_groups.1 a b n m hna hda hnb hdb hvn hvm hnm
    refine ⟨hparse, ?_, ?_⟩
    · exact List.Nodup.map natToStr_inj
        (List.nodup_range' n (m - n + 1) 1 Nat.one_pos)
    · have hsucc : ∀ v2 : Str,
          matcherNumRange ('[' :: ((a ++ '-' :: b) ++ ']' :: v2)) =
            some (a ++ '-' :: b, v2) := by
        intro v2
        have hassoc : (a ++ '-' :: b) ++ ']' :: v2 =
            a ++ '-' :: (b ++ ']' :: v2) := by
          simp [List.append_assoc]
        rw [hassoc]
        exact matcherNumRange_marker a b v2 hna hda hnb hdb
      have hfind := finditer_marker_mem matcherNumRange (a ++ '-' :: b)
        matcherNumRange_shape hsucc u v
      have hblock := extract_contains_match_block text refs matcherNumRange
        (List.mem_cons_of_mem _ (List.mem_cons_self _ _)) i
        (u ++ '[' :: ((a ++ '-' :: b) ++ ']' :: v)) hmem
        u.length (a ++ '-' :: b) hfind
      rw [hparse, List.map_map] at hblock
      exact hblock
  · intro text refs i u v items hmem hne hall
    have hparse := parseIds_groups.2 items hne hall
    refine ⟨hparse, ?_⟩
    have hfind := finditer_marker_mem matcherNumList (joinCommaSpace items)
      matcherNumList_shape
      (fun v2 => matcherNumList_marker items v2 hne hall) u v
    have hblock := extract_contains_match_block text refs matcherNumList
      (List.mem_cons_self _ _) i
      (u ++ '[' :: (joinCommaSpace items ++ ']' :: v)) hmem
      u.length (joinCommaSpace items) hfind
    rw [hparse] at hblock
    exact hblock

/-- Claim C8, witness: the range marker `[2-4]` and the list marker
`[12, 3]` inside the two sentences of `txt8`. -/
theorem claim8_witness :
    parseReferenceIds ( "2".toList ++ '-' :: "4".toList) =
      (List.range' 2 (4 - 2 + 1)).map natToStr ∧
    ((List.range' 2 (4 - 2 + 1)).map natToStr).Nodup ∧
    containsBlock (extractCitations txt8 [])
      ((List.range' 2 (4 - 2 + 1)).map fun k =>
        { reference_id := natToStr k
          position := ( "We use ".toList).length
          context := extractContext (splitSentences txt8) 0
          sentence := "We use ".toList ++
            '[' :: ( "2".toList ++ '-' :: "4".toList ++ ']' :: " here".toList)
          citation_type := classifyCitation ( "We use ".toList ++
            '[' :: ( "2".toList ++ '-' :: "4".toList ++
              ']' :: " here".toList)) }) ∧
    parseReferenceIds (joinCommaSpace [ "12".toList, "3".toList]) =
      [ "12".toList, "3".toList] ∧
    containsBlock (extractCitations txt8 [])
      ([ "12".toList, "3".toList].map fun rid =>
        { reference_id := rid
          position := ( "And ".toList).length
          context := extractContext (splitSentences txt8) 1
          sentence := "And ".toList ++
            '[' :: (joinCommaSpace [ "12".toList, "3".toList] ++
              ']' :: " also.".toList)
          citation_type := classifyCitation ( "And ".toList ++
            '[' :: (joinCommaSpace [ "12".toList, "3".toList] ++
              ']' :: " also.".toList)) }) := by
  obtain ⟨hp1, hp2, hp3⟩ := claim8_confirmed.1 txt8 [] 0 ( "We use ".toList)
    ( "2".toList) ( "4".toList) ( " here".toList) 2 4 (by decide) (by decide)
    (by decide) (by decide) (by decide) (by decide) (by decide) (by decide)
  obtain ⟨hq1, hq2⟩ := claim8_confirmed.2 txt8 [] 1 ( "And ".toList)
    ( " also.".toList) [ "12".toList, "3".toList] (by decide) (by decide)
    (by decide)
  exact ⟨hp1, hp2, hp3, hq1, hq2⟩



/-! ## Claim C7 -/


theorem lookupVal_mem {α β : Type} [DecidableEq α] (k : α) (v : β) :
    ∀ l : List (α × β), lookupVal k l = some v → (k, v) ∈ l := by
  intro l
  induction l with
  | nil => intro h; cases h
  | cons kv t ih =>
    intro h
    rcases kv with ⟨k', v'⟩
    rw [lookupVal] at h
    split at h
    · rename_i he
      rw [Option.some_inj] at h
      simp [he, h]
    · simp [ih h]

theorem mem_keys_lookup {α β : Type} [DecidableEq α] (k : α) :
    ∀ l : List (α × β), k ∈ l.map Prod.fst → ∃ v, lookupVal k l = some v := by
  intro l
  induction l with
  | nil => intro h; cases h
  | cons kv t ih =>
    intro h
    rcases kv with ⟨k', v'⟩
    rw [lookupVal]
    split
    · exact ⟨v', rfl⟩
    · rename_i he
      rcases List.mem_cons.mp h with h2 | h2
      · exact absurd h2.symm he
      · exact ih h2

theorem mem_lookup_of_nodup {α β : Type} [DecidableEq α] (k : α) (v : β) :
    ∀ l : List (α × β), (l.map Prod.fst).Nodup → (k, v) ∈ l →
      lookupVal k l = some v := by
  intro l
  induction l with
  | nil => intro _ h; cases h
  | cons kv t ih =>
    intro hnd h
    rcases kv with ⟨k', v'⟩
    rw [List.map_cons] at hnd
    have hnd' := List.nodup_cons.mp hnd
    rw [lookupVal]
    rcases List.mem_cons.mp h with h2 | h2
    · injection h2 with ha hb
      rw [if_pos ha.symm, hb]
    · split
      · rename_i he
        subst he
        exact absurd (List.mem_map_of_mem Prod.fst h2) hnd'.1
      · exact ih hnd'.2 h2

theorem upsertCount_keys {α : Type} [DecidableEq α] (k : α) :
    ∀ l : List (α × Nat),
      (upsertCount k l).map Prod.fst =
        if k ∈ l.map Prod.fst then l.map Prod.fst else l.map Prod.fst ++ [k] := by
  intro l
  induction l with
  | nil => simp [upsertCount]
  | cons kv t ih =>
    rcases kv with ⟨k', n⟩
    rw [upsertCount]
    split
    · rename_i he
      simp [he]
    · rename_i he
      rw [List.map_cons, List.map_cons, ih]
      by_cases hmem : k ∈ t.map Prod.fst
      · rw [if_pos hmem, if_pos (by simp [hmem])]
      · rw [if_neg hmem, if_neg (by
          simp only [List.map_cons, List.mem_cons]
          push_neg
          exact ⟨fun h => he h.symm, hmem⟩)]
        simp

theorem upsertCount_keys_nodup {α : Type} [DecidableEq α] (k : α)
    (l : List (α × Nat)) (h : (l.map Prod.fst).Nodup) :
    ((upsertCount k l).map Prod.fst).Nodup := by
  rw [upsertCount_keys]
  split
  · exact h
  · rename_i hmem
    simp [List.nodup_append, h, hmem]

theorem upsertCount_valueOf_same {α : Type} [DecidableEq α] (k : α) :
    ∀ l : List (α × Nat), valueOf k (upsertCount k l) = valueOf k l + 1 := by
  intro l
  induction l with
  | nil => simp [upsertCount, valueOf, lookupVal]
  | cons kv t ih =>
    rcases kv with ⟨k', n⟩
    rw [upsertCount]
    split
    · rename_i he
      subst he
      simp [valueOf, lookupVal]
    · rename_i he
      unfold valueOf lookupVal
      split
      · rename_i he2
        exact absurd he2 he
      · exact ih

theorem upsertCount_valueOf_other {α : Type} [DecidableEq α] (k k' : α)
    (hkk : k' ≠ k) :
    ∀ l : List (α × Nat), valueOf k' (upsertCount k l) = valueOf k' l := by
  intro l
  induction l with
  | nil => simp [upsertCount, valueOf, lookupVal, Ne.symm hkk]
  | cons kv t ih =>
    rcases kv with ⟨k2, n⟩
    rw [upsertCount]
    split
    · rename_i he
      have hne : ¬ k2 = k' := fun h2 => hkk (by rw [← h2, he])
      unfold valueOf lookupVal
      rw [if_neg hne, if_neg hne]
    · rename_i he
      unfold valueOf lookupVal
      by_cases he2 : k2 = k'
      · rw [if_pos he2, if_pos he2]
      · rw [if_neg he2, if_neg he2]
        exact ih



theorem foldl_add_init : ∀ (l : List Nat) (i : Nat),
    l.foldl (· + ·) i = i + l.foldl (· + ·) 0 := by
  intro l
  induction l with
  | nil => intro i; simp
  | cons x t ih =>
    intro i
    rw [List.foldl_cons, List.foldl_cons, ih (i + x), ih (0 + x)]
    omega

theorem listSumNat_cons (x : Nat) (l : List Nat) :
    listSumNat (x :: l) = x + listSumNat l := by
  rw [listSumNat, List.foldl_cons, foldl_add_init]
  rw [listSumNat]
  omega

theorem foldl_max_init : ∀ (l : List Nat) (i : Nat),
    l.foldl max i = max i (l.foldl max 0) := by
  intro l
  induction l with
  | nil => intro i; simp
  | cons x t ih =>
    intro i
    rw [List.foldl_cons, List.foldl_cons, ih (max i x), ih (max 0 x)]
    omega

theorem listMaxNat_cons (x : Nat) (l : List Nat) :
    listMaxNat (x :: l) = max x (listMaxNat l) := by
  rw [listMaxNat, List.foldl_cons, foldl_max_init]
  simp [listMaxNat]

theorem listMaxNat_ge : ∀ (l : List Nat) (x : Nat), x ∈ l → x ≤ listMaxNat l := by
  intro l
  induction l with
  | nil => intro x hx; cases hx
  | cons y t ih =>
    intro x hx
    rw [listMaxNat_cons]
    rcases List.mem_cons.mp hx with rfl | hx2
    · omega
    · have := ih x hx2
      omega

theorem listMaxNat_le : ∀ (l : List Nat) (m : Nat),
    (∀ x ∈ l, x ≤ m) → listMaxNat l ≤ m := by
  intro l
  induction l with
  | nil => intro m _; exact Nat.zero_le m
  | cons y t ih =>
    intro m h
    rw [listMaxNat_cons]
    have h1 := h y (by simp)
    have h2 := ih m (fun x hx => h x (by simp [hx]))
    omega

theorem upsertCount_sumVals {α : Type} [DecidableEq α] (k : α) :
    ∀ l : List (α × Nat),
      listSumNat ((upsertCount k l).map Prod.snd) =
        listSumNat (l.map Prod.snd) + 1 := by
  intro l
  induction l with
  | nil => simp [upsertCount, listSumNat]
  | cons kv t ih =>
    rcases kv with ⟨k', n⟩
    rw [upsertCount]
    split
    · rw [List.map_cons, List.map_cons, listSumNat_cons, listSumNat_cons]
      omega
    · rw [List.map_cons, List.map_cons, listSumNat_cons, listSumNat_cons, ih]
      omega

theorem citationCounts_valueOf :
    ∀ (cits : List ExtractedCitation) (acc : List (Str × Nat)) (k : Str),
      valueOf k (cits.foldl (fun a c => upsertCount c.reference_id a) acc) =
        valueOf k acc + citedCount cits k := by
  intro cits
  induction cits with
  | nil => intro acc k; simp [citedCount]
  | cons c rest ih =>
    intro acc k
    rw [List.foldl_cons, ih]
    unfold citedCount
    rw [List.countP_cons]
    unfold citedCount at ih
    by_cases he : c.reference_id = k
    · rw [he, upsertCount_valueOf_same]
      simp [he]
      omega
    · rw [upsertCount_valueOf_other c.reference_id k (fun h => he h.symm)]
      simp [he]

theorem citationCounts_keys :
    ∀ (cits : List ExtractedCitation) (acc : List (Str × Nat)) (k : Str),
      (k ∈ (cits.foldl (fun a c => upsertCount c.reference_id a) acc).map
          Prod.fst ↔
        k ∈ acc.map Prod.fst ∨ ∃ c ∈ cits, c.reference_id = k) := by
  intro cits
  induction cits with
  | nil => intro acc k; simp
  | cons c rest ih =>
    intro acc k
    rw [List.foldl_cons, ih]
    rw [upsertCount_keys]
    constructor
    · intro h
      rcases h with h | h
      · split at h
        · exact Or.inl h
        · rcases List.mem_append.mp h with h2 | h2
          · exact Or.inl h2
          · right
            exact ⟨c, by simp, by simp at h2; rw [h2]⟩
      · rcases h with ⟨c2, hc2, he⟩
        exact Or.inr ⟨c2, by simp [hc2], he⟩
    · intro h
      rcases h with h | ⟨c2, hc2, he⟩
      · left
        split
        · exact h
        · exact List.mem_append.mpr (Or.inl h)
      · rcases List.mem_cons.mp hc2 with rfl | hc3
        · left
          split
          · rename_i hmem
            rw [← he]
            exact hmem
          · exact List.mem_append.mpr (Or.inr (by simp [he]))
        · exact Or.inr ⟨c2, hc3, he⟩

theorem citationCounts_nodup :
    ∀ (cits : List ExtractedCitation) (acc : List (Str × Nat)),
      (acc.map Prod.fst).Nodup →
      ((cits.foldl (fun a c => upsertCount c.reference_id a) acc).map
          Prod.fst).Nodup := by
  intro cits
  induction cits with
  | nil => intro acc h; exact h
  | cons c rest ih =>
    intro acc h
    rw [List.foldl_cons]
    exact ih _ (upsertCount_keys_nodup _ _ h)

theorem citationCounts_sum :
    ∀ (cits : List ExtractedCitation) (acc : List (Str × Nat)),
      listSumNat
          ((cits.foldl (fun a c => upsertCount c.reference_id a) acc).map
            Prod.snd) =
        listSumNat (acc.map Prod.snd) + cits.length := by
  intro cits
  induction cits with
  | nil => intro acc; simp
  | cons c rest ih =>
    intro acc
    rw [List.foldl_cons, ih, upsertCount_sumVals]
    simp
    omega



theorem citationCounts_valueOf_nil (cits : List ExtractedCitation) (k : Str) :
    valueOf k (citationCounts cits) = citedCount cits k := by
  rw [citationCounts, citationCounts_valueOf cits [] k]
  simp [valueOf, lookupVal]

theorem citationCounts_keys_nil (cits : List ExtractedCitation) (k : Str) :
    k ∈ (citationCounts cits).map Prod.fst ↔
      ∃ c ∈ cits, c.reference_id = k := by
  rw [citationCounts, citationCounts_keys cits [] k]
  simp

theorem citationCounts_nodup_nil (cits : List ExtractedCitation) :
    ((citationCounts cits).map Prod.fst).Nodup := by
  rw [citationCounts]
  exact citationCounts_nodup cits [] (by simp)

theorem citationCounts_sum_nil (cits : List ExtractedCitation) :
    listSumNat ((citationCounts cits).map Prod.snd) = cits.length := by
  rw [citationCounts, citationCounts_sum cits []]
  simp [listSumNat]

theorem citationCounts_max (cits : List ExtractedCitation) :
    listMaxNat ((citationCounts cits).map Prod.snd) = maxCited cits := by
  apply le_antisymm
  · apply listMaxNat_le
    intro v hv
    rcases List.mem_map.mp hv with ⟨⟨k, v0⟩, hkv, hsnd⟩
    simp only at hsnd
    subst hsnd
    have hlk := mem_lookup_of_nodup k v0 _ (citationCounts_nodup_nil cits) hkv
    have hval : citedCount cits k = v0 := by
      rw [← citationCounts_valueOf_nil, valueOf, hlk]
      rfl
    have hkeys : k ∈ (citationCounts cits).map Prod.fst :=
      List.mem_map_of_mem Prod.fst hkv
    obtain ⟨c, hc, hck⟩ := (citationCounts_keys_nil cits k).mp hkeys
    have hmem2 : citedCount cits c.reference_id ∈
        cits.map (fun c => citedCount cits c.reference_id) :=
      List.mem_map_of_mem _ hc
    rw [hck, hval] at hmem2
    exact listMaxNat_ge _ v0 hmem2
  · apply listMaxNat_le
    intro v hv
    rcases List.mem_map.mp hv with ⟨c, hc, hval⟩
    have hkeys : c.reference_id ∈ (citationCounts cits).map Prod.fst :=
      (citationCounts_keys_nil cits c.reference_id).mpr ⟨c, hc, rfl⟩
    obtain ⟨w, hw⟩ := mem_keys_lookup c.reference_id _ hkeys
    have hvw : v = w := by
      rw [← hval, ← citationCounts_valueOf_nil cits c.reference_id, valueOf, hw]
      rfl
    rw [hvw]
    exact listMaxNat_ge _ w
      (List.mem_map_of_mem Prod.snd (lookupVal_mem c.reference_id w _ hw))



theorem isEmpty_false_of_ne_nil {α : Type} {l : List α} (h : l ≠ []) :
    l.isEmpty = false := by
  cases l with
  | nil => exact absurd rfl h
  | cons a t => rfl

/-- Claim C7 (confirmed): for a nonempty extracted-citation list, the
concentration detector emits a pattern iff the maximum single-reference
share of total citations strictly exceeds 0.3; the emitted pattern has
suspicion min(share * 1.5, 1) and its affected references are exactly
the ids tied for the maximum citation count. -/
theorem claim7_confirmed (g : CitationGraph) (cits : List ExtractedCitation)
    (hne : cits ≠ []) :
    ((detectConcentration g cits).isSome ↔
      (maxCited cits : ℚ) / (cits.length : ℚ) > 0.3) ∧
    ∀ p, detectConcentration g cits = some p →
      p.pattern_type = "citation_concentration".toList ∧
      p.suspicion_score =
        min ((maxCited cits : ℚ) / (cits.length : ℚ) * 1.5) 1 ∧
      ∀ rid, rid ∈ p.affected_references ↔
        ((∃ c ∈ cits, c.reference_id = rid) ∧
          citedCount cits rid = maxCited cits) := by
  have hne' := isEmpty_false_of_ne_nil hne
  have hcne : (citationCounts cits).isEmpty = false := by
    rcases List.exists_mem_of_ne_nil cits hne with ⟨c0, hc0⟩
    have hk : c0.reference_id ∈ (citationCounts cits).map Prod.fst :=
      (citationCounts_keys_nil cits c0.reference_id).mpr ⟨c0, hc0, rfl⟩
    rcases List.mem_map.mp hk with ⟨kv, hkv, _⟩
    exact isEmpty_false_of_ne_nil (List.ne_nil_of_mem hkv)
  unfold detectConcentration
  rw [if_neg (by rw [hne']; exact Bool.false_ne_true)]
  rw [if_neg (by rw [hcne]; exact Bool.false_ne_true)]
  rw [citationCounts_max, citationCounts_sum_nil]
  by_cases hc : (maxCited cits : ℚ) / (cits.length : ℚ) > 0.3
  · rw [if_pos hc]
    constructor
    · simp only [Option.isSome_some, true_iff]
      exact hc
    · intro p hp
      rw [Option.some_inj] at hp
      rw [← hp]
      dsimp only
      refine ⟨rfl, rfl, ?_⟩
      intro rid
      constructor
      · intro hmem
        rcases List.mem_map.mp hmem with ⟨⟨k, n⟩, hkn, hfst⟩
        simp only at hfst
        rcases List.mem_filter.mp hkn with ⟨hkn2, hpred⟩
        have hn : n = maxCited cits := of_decide_eq_true hpred
        have hlk := mem_lookup_of_nodup k n _
          (citationCounts_nodup_nil cits) hkn2
        have hval : citedCount cits k = n := by
          rw [← citationCounts_valueOf_nil, valueOf, hlk]
          rfl
        rw [← hfst]
        refine ⟨?_, by rw [hval, hn]⟩
        exact (citationCounts_keys_nil cits k).mp
          (List.mem_map_of_mem Prod.fst hkn2)
      · rintro ⟨⟨c, hcmem, hcid⟩, hcnt⟩
        have hkeys : rid ∈ (citationCounts cits).map Prod.fst :=
          (citationCounts_keys_nil cits rid).mpr ⟨c, hcmem, hcid⟩
        obtain ⟨w, hw⟩ := mem_keys_lookup rid _ hkeys
        have hvw : citedCount cits rid = w := by
          rw [← citationCounts_valueOf_nil, valueOf, hw]
          rfl
        have hwmax : w = maxCited cits := by rw [← hvw, hcnt]
        rw [List.mem_map]
        refine ⟨(rid, w), List.mem_filter.mpr
          ⟨lookupVal_mem rid w _ hw, decide_eq_true hwmax⟩, rfl⟩
  · rw [if_neg hc]
    constructor
    · simp only [Option.isSome_none, Bool.false_eq_true, false_iff]
      exact hc
    · intro p hp
      cases hp

/-- Claim C7, witness: reference 1 cited twice and reference 2 once
(share 2/3). -/
theorem claim7_witness :
    ([citCtxA1, citCtxA1, citCtxA2] : List ExtractedCitation) ≠ [] ∧
    ((detectConcentration graphPairW [citCtxA1, citCtxA1, citCtxA2]).isSome ↔
      (maxCited [citCtxA1, citCtxA1, citCtxA2] : ℚ) /
        (([citCtxA1, citCtxA1, citCtxA2] : List ExtractedCitation).length : ℚ) >
        0.3) :=
  ⟨by decide,
    (claim7_confirmed graphPairW [citCtxA1, citCtxA1, citCtxA2] (by decide)).1⟩


end CitationCore
